import Mathlib

/-!
# V4L2 camera capture: pixel conversion, frame-rate encoder and session lifecycle

A shallow embedding of `v4l2_cam.c`:

* `yuv422_to_rgb24` with its helpers `CLAMP`, `__convert_yuv2rgb`, `__convert_yuv2bgr`;
* `float_to_fraction_recursive` / `float_to_fraction`, with `double` arithmetic taken as exact
  rational arithmetic and `int` as 32-bit integers;
* `v4l2_open_cam`, `v4l2_grab_cam`, `v4l2_close_cam` over a driver oracle.

Definitions come first, theorems afterwards.
-/

namespace V4L2Cam

/-! ## Pixel conversion -/

/-- An `unsigned char`. -/
abbrev UChar := Fin 256

/-- The bytes reachable through a non-null `unsigned char *`: byte offset to content.  The input
and the output buffer of the converter are modelled as two separate objects. -/
abbrev Buffer := Nat → UChar

/-- `#define LOWER 0`. -/
def LOWER : Int := 0

/-- `#define UPPER 255`. -/
def UPPER : Int := 255

/-- `#define CLAMP(n) (n <= LOWER ? LOWER : n >= UPPER ? UPPER : n)`. -/
def CLAMP (n : Int) : Int :=
  if n ≤ LOWER then LOWER else if n ≥ UPPER then UPPER else n

/-- The conversion `(unsigned char) n` of an `int`: reduction modulo 256. -/
def toUChar (n : Int) : UChar := ⟨(n % 256).toNat, by omega⟩

/-- `__convert_yuv2rgb(y, u, v, rgb)`: the result is `(rgb[0], rgb[1], rgb[2])`.  The operands are
promoted to `int`; `>>` on `int` is the arithmetic shift. -/
def __convert_yuv2rgb (y u v : UChar) : UChar × UChar × UChar :=
  let y : Int := y.val
  let u : Int := u.val
  let v : Int := v.val
  let rgb2 := toUChar (CLAMP ((298*(y-16) + 516*(u-128) + 128) >>> (8 : Nat)))
  let rgb1 := toUChar (CLAMP ((298*(y-16) - 100*(u-128) - 208*(v-128) + 128) >>> (8 : Nat)))
  let rgb0 := toUChar (CLAMP ((298*(y-16) + 409*(v-128) + 128) >>> (8 : Nat)))
  (rgb0, rgb1, rgb2)

/-- `__convert_yuv2bgr(y, u, v, bgr)`: the result is `(bgr[0], bgr[1], bgr[2])`. -/
def __convert_yuv2bgr (y u v : UChar) : UChar × UChar × UChar :=
  let y : Int := y.val
  let u : Int := u.val
  let v : Int := v.val
  let bgr0 := toUChar (CLAMP ((298*(y-16) + 516*(u-128) + 128) >>> (8 : Nat)))
  let bgr1 := toUChar (CLAMP ((298*(y-16) - 100*(u-128) - 208*(v-128) + 128) >>> (8 : Nat)))
  let bgr2 := toUChar (CLAMP ((298*(y-16) + 409*(v-128) + 128) >>> (8 : Nat)))
  (bgr0, bgr1, bgr2)

/-- The output buffer during a conversion, together with the offsets read from the input buffer
and the offsets written in the output buffer so far (oldest first). -/
structure ConvState where
  out : Buffer
  reads : List Nat
  writes : List Nat

/-- `memcpy(dst + off, src, 3)` for a three-byte source. -/
def memcpy3 (dst : Buffer) (off : Nat) (src : UChar × UChar × UChar) : Buffer :=
  fun j =>
    if j = off then src.1
    else if j = off + 1 then src.2.1
    else if j = off + 2 then src.2.2
    else dst j

/-- One iteration of the `for` loop of `yuv422_to_rgb24`, for loop counter `i`.  The products
`i*4` and `i*6` are `unsigned int` products. -/
def loopBody (inp : Buffer) (bgr_mode : Nat) (i : Nat) (st : ConvState) : ConvState :=
  let src := (i * 4) % 2 ^ 32
  let yuyv0 := inp src
  let yuyv1 := inp (src + 1)
  let yuyv2 := inp (src + 2)
  let yuyv3 := inp (src + 3)
  let dst := (i * 6) % 2 ^ 32
  let bgra :=
    if bgr_mode ≠ 0 then __convert_yuv2bgr yuyv0 yuyv1 yuyv3
    else __convert_yuv2rgb yuyv0 yuyv1 yuyv3
  let out1 := memcpy3 st.out dst bgra
  let bgra :=
    if bgr_mode ≠ 0 then __convert_yuv2bgr yuyv2 yuyv1 yuyv3
    else __convert_yuv2rgb yuyv2 yuyv1 yuyv3
  let out2 := memcpy3 out1 (dst + 3) bgra
  { out := out2
    reads := st.reads ++ [src, src + 1, src + 2, src + 3]
    writes := st.writes ++ [dst, dst + 1, dst + 2, dst + 3, dst + 4, dst + 5] }

/-- The loop `for (i = ...; i < macropixel; i++)` with `remaining = macropixel - i` iterations
left. -/
def convLoop (inp : Buffer) (bgr_mode : Nat) : Nat → Nat → ConvState → ConvState
  | 0, _, st => st
  | remaining + 1, i, st => convLoop inp bgr_mode remaining (i + 1) (loopBody inp bgr_mode i st)

/-- What a call of `yuv422_to_rgb24` leaves behind: the output buffer (`none` when the pointer was
null) and the offsets it read and wrote. -/
structure ConvResult where
  out : Option Buffer
  reads : List Nat
  writes : List Nat

/-- `yuv422_to_rgb24(yuv422_buf, bgr24_buf, x_res, y_res, bgr_mode)`; a null pointer is `none`.
`x_res * y_res` is an `unsigned int` product. -/
def yuv422_to_rgb24 (yuv422_buf bgr24_buf : Option Buffer) (x_res y_res bgr_mode : Nat) :
    ConvResult :=
  let macropixel := ((x_res * y_res) % 2 ^ 32) >>> 1
  match yuv422_buf, bgr24_buf with
  | some inp, some out =>
    if x_res = 0 ∨ y_res = 0 then ⟨some out, [], []⟩
    else
      let st := convLoop inp bgr_mode macropixel 0 ⟨out, [], []⟩
      ⟨some st.out, st.reads, st.writes⟩
  | _, out => ⟨out, [], []⟩

/-- Saturation of an integer to `[0, 255]`, as the specification words it. -/
def clampSat (v : Int) : Int := max 0 (min 255 v)

/-- The blue channel as the specification writes it (floor shift by 8 is floor division by 256). -/
def specBlue (Y U : Int) : Int := clampSat ((298*(Y-16) + 516*(U-128) + 128) / 256)

/-- The green channel as the specification writes it. -/
def specGreen (Y U V : Int) : Int :=
  clampSat ((298*(Y-16) - 100*(U-128) - 208*(V-128) + 128) / 256)

/-- The red channel as the specification writes it. -/
def specRed (Y V : Int) : Int := clampSat ((298*(Y-16) + 409*(V-128) + 128) / 256)

/-- A buffer whose every byte is 128: mid-grey luma with neutral chroma throughout. -/
def greyBuf : Buffer := fun _ => 128

/-- A buffer whose every byte is 0. -/
def zeroBuf : Buffer := fun _ => 0

/-- The three bytes of a pixel in memory order, as the specification gives them: red, green,
blue for `bgr_mode = 0`, blue, green, red otherwise. -/
def specTriplet (bgr_mode : Nat) (Y U V : Int) : Int × Int × Int :=
  if bgr_mode = 0 then (specRed Y V, specGreen Y U V, specBlue Y U)
  else (specBlue Y U, specGreen Y U V, specRed Y V)

/-! ## Frame-rate encoder -/

/-- `FLT_EPSILON` of `<float.h>`, which is `2^-23`. -/
def FLT_EPSILON : ℚ := 1 / 2 ^ 23

/-- `INT_MIN` of a 32-bit `int`. -/
def INT_MIN : ℤ := -(2 ^ 31)

/-- `INT_MAX` of a 32-bit `int`. -/
def INT_MAX : ℤ := 2 ^ 31 - 1

/-- The value a 32-bit `int` holds for the mathematical result `z` of `*` or `+`: `z` itself
when it fits, and otherwise (signed overflow, undefined in C) the two's complement wrap the
compiled code computes. -/
def wrapInt32 (z : ℤ) : ℤ := (z + 2 ^ 31) % 2 ^ 32 - 2 ^ 31

/-- The conversion `(int) f` of a `double` to a 32-bit `int`: truncation toward zero when the
truncated value fits, and otherwise (undefined in C) `INT_MIN`, the value the x86-64 conversion
instruction delivers. -/
def truncToInt (f : ℚ) : ℤ :=
  let t := if 0 ≤ f then ⌊f⌋ else -⌊-f⌋
  if INT_MIN ≤ t ∧ t ≤ INT_MAX then t else INT_MIN

/-- The conversion of an `int` to `__u32`: reduction modulo `2^32`. -/
def toU32 (z : ℤ) : ℤ := z % 2 ^ 32

/-- `float_to_fraction_recursive(f, p, &num, &den)`; the result is `(return value, *num, *den)`.
`double` arithmetic is exact rational arithmetic, `int` is 32 bits wide.  `fuel` bounds the
number of nested calls; `none` means the bound was reached. -/
def float_to_fraction_recursive : Nat → ℚ → ℚ → Option (ℤ × ℤ × ℤ)
  | 0, _, _ => none
  | fuel + 1, f, p =>
    let whole := truncToInt f
    let f := |f - whole|
    if f > p then
      match float_to_fraction_recursive fuel (1 / f) (p + p / f) with
      | none => none
      | some (a, n, d) => some (whole, d, wrapInt32 (wrapInt32 (d * a) + n))
    else
      some (whole, 0, 1)

/-- The number of calls nested inside a call of `float_to_fraction_recursive(f, p, ..)`: the
same recursion, counting instead of computing. -/
def nestedCalls : Nat → ℚ → ℚ → Option Nat
  | 0, _, _ => none
  | fuel + 1, f, p =>
    let whole := truncToInt f
    let f := |f - whole|
    if f > p then
      match nestedCalls fuel (1 / f) (p + p / f) with
      | none => none
      | some k => some (k + 1)
    else
      some 0

/-- `float_to_fraction(f, &num, &den)`; the result is `(*num, *den)`. -/
def float_to_fraction (fuel : Nat) (f : ℚ) : Option (ℤ × ℤ) :=
  match float_to_fraction_recursive fuel f FLT_EPSILON with
  | none => none
  | some (whole, num, den) => some (wrapInt32 (num + wrapInt32 (whole * den)), den)

/-- The frame interval `v4l2_open_cam` puts in `parm.parm.capture.timeperframe`, as
`(numerator, denominator)`: `numerator = den`, `denominator = num`, both fields being
`__u32`. -/
def timeperframe (fuel : Nat) (grab_fps : ℚ) : Option (ℤ × ℤ) :=
  match float_to_fraction fuel grab_fps with
  | none => none
  | some (num, den) => some (toU32 den, toU32 num)

/-! ## Device session -/

/-- `enum V4L2_CAM_FMT`, first enumerator. -/
def V4L2_CAM_FMT_YUV : Nat := 0

/-- `enum V4L2_CAM_FMT`, second enumerator. -/
def V4L2_CAM_FMT_MJPG : Nat := 1

/-- `enum V4L2_CAM_FMT`, third enumerator. -/
def V4L2_CAM_FMT_GREY : Nat := 2

/-- Modelled from the spec: `V4L2_CAM_FMT_Y16` is used by `v4l2_open_cam` but missing from the
enumeration in `v4l2_cam.h`; the specification lists 16-bit greyscale as the fourth pixel
format, so it is taken to be the next enumerator. -/
def V4L2_CAM_FMT_Y16 : Nat := 3

/-- `V4L2_BUF_TYPE_VIDEO_CAPTURE` of `<linux/videodev2.h>`. -/
def V4L2_BUF_TYPE_VIDEO_CAPTURE : Nat := 1

/-- `V4L2_MEMORY_MMAP` of `<linux/videodev2.h>`. -/
def V4L2_MEMORY_MMAP : Nat := 1

/-- `V4L2_FIELD_NONE` of `<linux/videodev2.h>`. -/
def V4L2_FIELD_NONE : Nat := 1

/-- `V4L2_PIX_FMT_YUYV`, the four-character code `YUYV`. -/
def V4L2_PIX_FMT_YUYV : Nat := 0x56595559

/-- `V4L2_PIX_FMT_MJPEG`, the four-character code `MJPG`. -/
def V4L2_PIX_FMT_MJPEG : Nat := 0x47504A4D

/-- `V4L2_PIX_FMT_GREY`, the four-character code `GREY`. -/
def V4L2_PIX_FMT_GREY : Nat := 0x59455247

/-- `V4L2_PIX_FMT_Y16`, the four-character code `Y16 `. -/
def V4L2_PIX_FMT_Y16 : Nat := 0x20363159

/-- `struct v4l2_cam`.  `data_buf` is an address, `0` being the null pointer; `grab_fps` is a
rational. -/
structure v4l2_cam where
  cam_fd : Int
  cam_id : Nat
  img_width : Nat
  img_height : Nat
  grab_fps : ℚ
  grab_fmt : Nat
  data_buf : Int
  buf_len : Nat

/-- The fields of `struct v4l2_buffer` the module touches (`offset` is `m.offset`). -/
structure v4l2_buffer where
  index : Nat
  type : Nat
  bytesused : Nat
  memory : Nat
  offset : Nat
  length : Nat

/-- A request the module sends to the operating system, with the arguments it passes. -/
inductive Request where
  /-- `open("/dev/video<cam_id>", O_RDWR)` -/
  | open_dev (cam_id : Nat)
  /-- `VIDIOC_QUERYCAP` -/
  | querycap (fd : Int)
  /-- `VIDIOC_S_FMT` -/
  | s_fmt (fd : Int) (type width height pixelformat field : Nat)
  /-- `VIDIOC_S_PARM`, with `timeperframe.numerator` and `timeperframe.denominator` -/
  | s_parm (fd : Int) (type : Nat) (numerator denominator : Int)
  /-- `VIDIOC_REQBUFS` -/
  | reqbufs (fd : Int) (count type memory : Nat)
  /-- `VIDIOC_QUERYBUF` -/
  | querybuf (fd : Int) (buf : v4l2_buffer)
  /-- `mmap(NULL, length, PROT_READ | PROT_WRITE, MAP_SHARED, fd, offset)` -/
  | mmap (length : Nat) (fd : Int) (offset : Nat)
  /-- `VIDIOC_QBUF` -/
  | qbuf (fd : Int) (buf : v4l2_buffer)
  /-- `VIDIOC_STREAMON` -/
  | streamon (fd : Int) (type : Nat)
  /-- `VIDIOC_DQBUF` -/
  | dqbuf (fd : Int) (buf : v4l2_buffer)
  /-- `VIDIOC_STREAMOFF` -/
  | streamoff (fd : Int) (type : Nat)
  /-- `munmap(addr, length)` -/
  | munmap (addr : Int) (length : Nat)
  /-- `close(fd)` -/
  | close (fd : Int)

/-- The answer to a request: the return value (`-1` on failure; for `mmap` the mapped address,
`MAP_FAILED` being `(void *) -1`), and the `struct v4l2_buffer` argument as the driver left
it. -/
structure Response where
  ret : Int
  buf : v4l2_buffer

/-- A request together with the answer it got. -/
abbrev Event := Request × Response

/-- The driver as an oracle: given the exchanges so far and a request, its answer. -/
abbrev Driver := List Event → Request → Response

/-- Send one request: the answer, and the exchanges of the current call extended by this one.
`hist` holds the exchanges before the current call, `tr` those of the current call. -/
def issue (drv : Driver) (hist tr : List Event) (req : Request) : Response × List Event :=
  let resp := drv (hist ++ tr) req
  (resp, tr ++ [(req, resp)])

/-- `xioctl(fd, request, arg)`: the answer is the return value of the last `ioctl` of the retry
loop, the one not interrupted by `EINTR`. -/
def xioctl (drv : Driver) (hist tr : List Event) (req : Request) : Response × List Event :=
  issue drv hist tr req

/-- What a session call leaves behind: the return value, the session structure (`none` for a
null pointer) and the exchanges of the call, oldest first. -/
structure Outcome where
  ret : Int
  cam : Option v4l2_cam
  trace : List Event

/-- The `struct v4l2_buffer` after `memset(&buf, 0, sizeof(buf))`. -/
def zeroed_buffer : v4l2_buffer := ⟨0, 0, 0, 0, 0, 0⟩

/-- The pixel format `v4l2_open_cam` selects for `grab_fmt`. -/
def pixelformat_of (grab_fmt : Nat) : Nat :=
  if grab_fmt = V4L2_CAM_FMT_YUV then V4L2_PIX_FMT_YUYV
  else if grab_fmt = V4L2_CAM_FMT_MJPG then V4L2_PIX_FMT_MJPEG
  else if grab_fmt = V4L2_CAM_FMT_GREY then V4L2_PIX_FMT_GREY
  else if grab_fmt = V4L2_CAM_FMT_Y16 then V4L2_PIX_FMT_Y16
  else V4L2_PIX_FMT_YUYV

/-- The part of `v4l2_open_cam` from `//request buffer` to the end (`MEM_USER_PTR` is `0`). -/
def v4l2_open_cam_buffers (drv : Driver) (hist tr : List Event) (cam_data : v4l2_cam) :
    Outcome :=
  let buf := zeroed_buffer
  -- request buffer
  let (r, tr) := xioctl drv hist tr
    (.reqbufs cam_data.cam_fd 1 V4L2_BUF_TYPE_VIDEO_CAPTURE V4L2_MEMORY_MMAP)
  if r.ret = -1 then ⟨0, some cam_data, tr⟩ else
  -- query buffer
  let buf := { buf with type := V4L2_BUF_TYPE_VIDEO_CAPTURE, memory := V4L2_MEMORY_MMAP,
                        index := 0 }
  let (r, tr) := xioctl drv hist tr (.querybuf cam_data.cam_fd buf)
  if r.ret = -1 then ⟨0, some cam_data, tr⟩ else
  let buf := r.buf
  -- map buffer
  let (r, tr) := issue drv hist tr (.mmap buf.length cam_data.cam_fd buf.offset)
  let cam_data := { cam_data with data_buf := r.ret }
  if cam_data.data_buf = -1 then ⟨0, some cam_data, tr⟩ else
  -- queue buffer
  let buf := { buf with type := V4L2_BUF_TYPE_VIDEO_CAPTURE, index := 0,
                        memory := V4L2_MEMORY_MMAP }
  let cam_data := { cam_data with buf_len := buf.length }
  let (r, tr) := xioctl drv hist tr (.qbuf cam_data.cam_fd buf)
  if r.ret = -1 then ⟨0, some cam_data, tr⟩ else
  let buf := r.buf
  -- start stream
  let (r, tr) := xioctl drv hist tr (.streamon cam_data.cam_fd buf.type)
  if r.ret = -1 then ⟨0, some cam_data, tr⟩ else
  ⟨1, some cam_data, tr⟩

/-- `v4l2_open_cam(cam_data)`; `none` for `cam_data` is the null pointer.  The result is `none`
when `float_to_fraction` exceeds `fuel` nested calls. -/
def v4l2_open_cam (fuel : Nat) (drv : Driver) (hist : List Event) :
    Option v4l2_cam → Option Outcome
  | none => some ⟨0, none, []⟩
  | some cam_data =>
    -- open device
    let (r, tr) := issue drv hist [] (.open_dev cam_data.cam_id)
    let cam_data := { cam_data with cam_fd := r.ret }
    if cam_data.cam_fd = -1 then some ⟨0, some cam_data, tr⟩ else
    -- query capability
    let (r, tr) := xioctl drv hist tr (.querycap cam_data.cam_fd)
    if r.ret = -1 then some ⟨0, some cam_data, tr⟩ else
    -- setup format
    let (r, tr) := xioctl drv hist tr
      (.s_fmt cam_data.cam_fd V4L2_BUF_TYPE_VIDEO_CAPTURE cam_data.img_width
        cam_data.img_height (pixelformat_of cam_data.grab_fmt) V4L2_FIELD_NONE)
    if r.ret = -1 then some ⟨0, some cam_data, tr⟩ else
    -- setup frame rate
    if cam_data.grab_fps > 0 then
      match float_to_fraction fuel cam_data.grab_fps with
      | none => none
      | some (num, den) =>
        let (r, tr) := xioctl drv hist tr
          (.s_parm cam_data.cam_fd V4L2_BUF_TYPE_VIDEO_CAPTURE (toU32 den) (toU32 num))
        if r.ret = -1 then some ⟨0, some cam_data, tr⟩ else
        some (v4l2_open_cam_buffers drv hist tr cam_data)
    else
      some (v4l2_open_cam_buffers drv hist tr cam_data)

/-- What `v4l2_grab_cam` leaves behind: as `Outcome`, and the cell `grab_len` points to (`none`
for a null pointer). -/
structure GrabOutcome where
  ret : Int
  cam : Option v4l2_cam
  grab_len : Option Nat
  trace : List Event

/-- `v4l2_grab_cam(cam_data, grab_len)`; `grab_len` is `none` for a null pointer and otherwise
the content of the cell it points to. -/
def v4l2_grab_cam (drv : Driver) (hist : List Event) :
    Option v4l2_cam → Option Nat → GrabOutcome
  | none, grab_len => ⟨0, none, grab_len, []⟩
  | some cam_data, grab_len =>
    let buf := zeroed_buffer
    -- dequeue buffer
    let buf := { buf with type := V4L2_BUF_TYPE_VIDEO_CAPTURE, length := cam_data.buf_len,
                          memory := V4L2_MEMORY_MMAP }
    let (r, tr) := xioctl drv hist [] (.dqbuf cam_data.cam_fd buf)
    if r.ret = -1 then ⟨0, some cam_data, grab_len, tr⟩ else
    let buf := r.buf
    let grab_len := match grab_len with
      | some _ => some buf.bytesused
      | none => none
    -- queue buffer
    let (r, tr) := xioctl drv hist tr (.qbuf cam_data.cam_fd buf)
    if r.ret = -1 then ⟨0, some cam_data, grab_len, tr⟩ else
    ⟨1, some cam_data, grab_len, tr⟩

/-- The part of `v4l2_close_cam` from `//close device` to the end. -/
def v4l2_close_cam_device (drv : Driver) (hist tr : List Event) (cam_data : v4l2_cam) :
    Outcome :=
  let (r, tr) := issue drv hist tr (.close cam_data.cam_fd)
  if r.ret = -1 then ⟨0, some cam_data, tr⟩ else
  let cam_data := { cam_data with cam_fd := 0 }
  ⟨1, some cam_data, tr⟩

/-- `v4l2_close_cam(cam_data)`.  `munmap` is reached only when `data_buf` and `buf_len` are both
non-zero, as `&&` evaluates left to right. -/
def v4l2_close_cam (drv : Driver) (hist : List Event) : Option v4l2_cam → Outcome
  | none => ⟨0, none, []⟩
  | some cam_data =>
    -- stop stream
    let (r, tr) := xioctl drv hist [] (.streamoff cam_data.cam_fd V4L2_BUF_TYPE_VIDEO_CAPTURE)
    if r.ret = -1 then ⟨0, some cam_data, tr⟩ else
    -- unmap buffer
    if cam_data.data_buf ≠ 0 ∧ cam_data.buf_len ≠ 0 then
      let (r, tr) := issue drv hist tr (.munmap cam_data.data_buf cam_data.buf_len)
      if r.ret = -1 then ⟨0, some cam_data, tr⟩ else
      let cam_data := { cam_data with data_buf := 0, buf_len := 0 }
      v4l2_close_cam_device drv hist tr cam_data
    else
      let cam_data := { cam_data with data_buf := 0, buf_len := 0 }
      v4l2_close_cam_device drv hist tr cam_data

/-- The kind of a request, forgetting its arguments. -/
inductive Step where
  | open_device | query_capability | set_format | set_frame_interval | request_buffer
  | query_buffer | map_buffer | enqueue_buffer | stream_on | dequeue_buffer | stream_off
  | unmap_buffer | close_device
  deriving DecidableEq

/-- The kind of a request. -/
def Request.step : Request → Step
  | .open_dev _ => .open_device
  | .querycap _ => .query_capability
  | .s_fmt _ _ _ _ _ _ => .set_format
  | .s_parm _ _ _ _ => .set_frame_interval
  | .reqbufs _ _ _ _ => .request_buffer
  | .querybuf _ _ => .query_buffer
  | .mmap _ _ _ => .map_buffer
  | .qbuf _ _ => .enqueue_buffer
  | .streamon _ _ => .stream_on
  | .dqbuf _ _ => .dequeue_buffer
  | .streamoff _ _ => .stream_off
  | .munmap _ _ => .unmap_buffer
  | .close _ => .close_device

/-- The kinds of the exchanges of a call, in order. -/
def steps (tr : List Event) : List Step := tr.map (fun e => e.1.step)

/-- The order of steps the specification gives for `open`, the frame-interval step being
present for a positive rate only. -/
def openPlan (grab_fps : ℚ) : List Step :=
  [.open_device, .query_capability, .set_format] ++
  (if 0 < grab_fps then [.set_frame_interval] else []) ++
  [.request_buffer, .query_buffer, .map_buffer, .enqueue_buffer, .stream_on]

/-- The order of steps the specification gives for `close`, the unmap step being skipped when
the buffer pointer or length is zero. -/
def closePlan (cam : v4l2_cam) : List Step :=
  [.stream_off] ++
  (if cam.data_buf ≠ 0 ∧ cam.buf_len ≠ 0 then [.unmap_buffer] else []) ++
  [.close_device]

/-- A driver that answers every request with return value `ret` and a buffer of 4096 bytes. -/
def constDriver (ret : Int) : Driver := fun _ _ => ⟨ret, ⟨0, 1, 614400, 1, 0, 4096⟩⟩

/-- A session structure as a caller sets it up: device 0, 640x480, 30 frames per second. -/
def sampleCam : v4l2_cam := ⟨0, 0, 640, 480, 30, 0, 0, 0⟩

/-- A call that follows `plan` and stops at the first failing step: the steps issued are an
initial part of `plan`; every exchange but the last succeeded; the call returns `1` exactly when
every exchange succeeded, in which case the whole of `plan` was issued, and `0` otherwise. -/
def FollowsPlan (plan : List Step) (ret : Int) (tr : List Event) : Prop :=
  steps tr <+: plan ∧
  (∀ e ∈ tr.dropLast, e.2.ret ≠ -1) ∧
  (ret = 1 ↔ ∀ e ∈ tr, e.2.ret ≠ -1) ∧
  (ret = 0 ∨ ret = 1) ∧
  (ret = 1 → steps tr = plan)

/-- A request of a plan, as a function of the exchanges of the current call so far. -/
abbrev Planned := List Event → Request

/-- A lifecycle operation as the specification words it: send the planned requests in order,
each to the driver together with the exchanges so far; at the first answer `-1` stop and
return 0; return 1 when none failed.  The result is the return value and the exchanges. -/
def runPlan (drv : Driver) (hist : List Event) : List Planned → List Event → Int × List Event
  | [], tr => (1, tr)
  | q :: rest, tr =>
    let resp := drv (hist ++ tr) (q tr)
    if resp.ret = -1 then (0, tr ++ [(q tr, resp)])
    else runPlan drv hist rest (tr ++ [(q tr, resp)])

/-- The device handle of the current call: what its first exchange, open-device, returned. -/
def handleOf (tr : List Event) : Int :=
  match tr.head? with
  | some e => e.2.ret
  | none => -1

/-- The buffer descriptor as the driver left it in the latest exchange. -/
def lastBuf (tr : List Event) : v4l2_buffer :=
  match tr.getLast? with
  | some e => e.2.buf
  | none => zeroed_buffer

/-- The buffer descriptor as the driver left it in the exchange before the latest. -/
def prevBuf (tr : List Event) : v4l2_buffer := lastBuf tr.dropLast

/-- Steps 5 to 9 of `open` with their arguments: request exactly one memory-mapped capture
buffer; query buffer 0; map the reported length at the reported offset on the device handle;
enqueue that buffer; start streaming on the capture type. -/
def bufferRequests : List Planned :=
  [fun tr => .reqbufs (handleOf tr) 1 V4L2_BUF_TYPE_VIDEO_CAPTURE V4L2_MEMORY_MMAP,
   fun tr => .querybuf (handleOf tr) ⟨0, V4L2_BUF_TYPE_VIDEO_CAPTURE, 0, V4L2_MEMORY_MMAP, 0, 0⟩,
   fun tr => .mmap (lastBuf tr).length (handleOf tr) (lastBuf tr).offset,
   fun tr => .qbuf (handleOf tr)
      ⟨0, V4L2_BUF_TYPE_VIDEO_CAPTURE, (prevBuf tr).bytesused, V4L2_MEMORY_MMAP,
        (prevBuf tr).offset, (prevBuf tr).length⟩,
   fun tr => .streamon (handleOf tr) (lastBuf tr).type]

/-- The steps of `open` with their arguments: open the device node of `cam_id`; query the
capability; set width, height, pixel format and progressive field order; set the frame
interval when one is given; then `bufferRequests`. -/
def openRequests (cam : v4l2_cam) (interval : Option (ℤ × ℤ)) : List Planned :=
  ([fun _ => Request.open_dev cam.cam_id,
    fun tr => Request.querycap (handleOf tr),
    fun tr => Request.s_fmt (handleOf tr) V4L2_BUF_TYPE_VIDEO_CAPTURE cam.img_width
      cam.img_height (pixelformat_of cam.grab_fmt) V4L2_FIELD_NONE] : List Planned) ++
  (match interval with
   | some (numerator, denominator) =>
     ([fun tr => Request.s_parm (handleOf tr) V4L2_BUF_TYPE_VIDEO_CAPTURE numerator
        denominator] : List Planned)
   | none => []) ++
  bufferRequests

/-- The steps of `close` with their arguments: stop streaming on the capture type; unmap the
buffer unless its pointer or length is zero; close the device handle. -/
def closeRequests (cam : v4l2_cam) : List Planned :=
  ([fun _ => Request.streamoff cam.cam_fd V4L2_BUF_TYPE_VIDEO_CAPTURE] : List Planned) ++
  (if cam.data_buf ≠ 0 ∧ cam.buf_len ≠ 0 then
    ([fun _ => Request.munmap cam.data_buf cam.buf_len] : List Planned) else []) ++
  ([fun _ => Request.close cam.cam_fd] : List Planned)

/-! ## Theorems: pixel conversion -/

theorem toUChar_CLAMP (n : Int) : ((toUChar (CLAMP n)).val : Int) = clampSat n := by
  unfold toUChar CLAMP clampSat LOWER UPPER
  simp only []
  split_ifs <;> omega

theorem shift8 (n : Int) : n >>> (8 : Nat) = n / 256 := by
  rw [Int.shiftRight_eq_div_pow]; rfl

theorem convert_yuv2rgb_val (y u v : UChar) :
    (((__convert_yuv2rgb y u v).1.val : Int) = specRed y.val v.val) ∧
    (((__convert_yuv2rgb y u v).2.1.val : Int) = specGreen y.val u.val v.val) ∧
    (((__convert_yuv2rgb y u v).2.2.val : Int) = specBlue y.val u.val) := by
  simp [__convert_yuv2rgb, toUChar_CLAMP, shift8, specRed, specGreen, specBlue]

theorem convert_yuv2bgr_val (y u v : UChar) :
    (((__convert_yuv2bgr y u v).1.val : Int) = specBlue y.val u.val) ∧
    (((__convert_yuv2bgr y u v).2.1.val : Int) = specGreen y.val u.val v.val) ∧
    (((__convert_yuv2bgr y u v).2.2.val : Int) = specRed y.val v.val) := by
  simp [__convert_yuv2bgr, toUChar_CLAMP, shift8, specRed, specGreen, specBlue]

theorem loopBody_out_ge (inp : Buffer) (mode i : Nat) (st : ConvState) (j : Nat)
    (h : 6 * (i + 1) ≤ j) : (loopBody inp mode i st).out j = st.out j := by
  have hle : (i * 6) % 2 ^ 32 ≤ i * 6 := Nat.mod_le _ _
  simp only [loopBody, memcpy3]
  rw [if_neg (by omega), if_neg (by omega), if_neg (by omega), if_neg (by omega),
    if_neg (by omega), if_neg (by omega)]

theorem loopBody_out_lt (inp : Buffer) (mode i : Nat) (st : ConvState) (j : Nat)
    (hi : i * 6 < 2 ^ 32) (h : j < 6 * i) : (loopBody inp mode i st).out j = st.out j := by
  have hle : (i * 6) % 2 ^ 32 = i * 6 := Nat.mod_eq_of_lt hi
  simp only [loopBody, memcpy3, hle]
  rw [if_neg (by omega), if_neg (by omega), if_neg (by omega), if_neg (by omega),
    if_neg (by omega), if_neg (by omega)]

theorem convLoop_out_ge (inp : Buffer) (mode : Nat) (k : Nat) :
    ∀ (i : Nat) (st : ConvState) (j : Nat), 6 * (i + k) ≤ j →
      (convLoop inp mode k i st).out j = st.out j := by
  induction k with
  | zero => intro i st j _; rfl
  | succ k ih =>
    intro i st j h
    rw [convLoop, ih (i + 1) _ j (by omega), loopBody_out_ge inp mode i st j (by omega)]

theorem convLoop_out_lt (inp : Buffer) (mode : Nat) (k : Nat) :
    ∀ (i : Nat) (st : ConvState) (j : Nat), (i + k) * 6 ≤ 2 ^ 32 → j < 6 * i →
      (convLoop inp mode k i st).out j = st.out j := by
  induction k with
  | zero => intro i st j _ _; rfl
  | succ k ih =>
    intro i st j hb h
    rw [convLoop, ih (i + 1) _ j (by omega) (by omega),
      loopBody_out_lt inp mode i st j (by omega) h]

theorem convLoop_out_at (inp : Buffer) (mode : Nat) (k : Nat) :
    ∀ (i : Nat) (st : ConvState) (m t : Nat), (i + k) * 6 ≤ 2 ^ 32 → i ≤ m → m < i + k → t < 6 →
      (convLoop inp mode k i st).out (6 * m + t) = (loopBody inp mode m st).out (6 * m + t) := by
  induction k with
  | zero => intro i st m t _ h1 h2; omega
  | succ k ih =>
    intro i st m t hb h1 h2 ht
    rw [convLoop]
    rcases Nat.eq_or_lt_of_le h1 with h | h
    · subst h
      rw [convLoop_out_lt inp mode k (i + 1) _ _ (by omega) (by omega)]
    · rw [ih (i + 1) _ m t (by omega) (by omega) (by omega) ht]
      have hm : (m * 6) % 2 ^ 32 = m * 6 := Nat.mod_eq_of_lt (by omega)
      simp only [loopBody, memcpy3, hm]
      have h6 : 6 * m = m * 6 := by omega
      interval_cases t <;> simp [h6]

theorem convLoop_writes (inp : Buffer) (mode : Nat) (k : Nat) :
    ∀ (i : Nat) (st : ConvState) (w : Nat), w ∈ (convLoop inp mode k i st).writes →
      w ∈ st.writes ∨ w < 6 * (i + k) := by
  induction k with
  | zero => intro i st w h; exact Or.inl h
  | succ k ih =>
    intro i st w h
    rw [convLoop] at h
    rcases ih (i + 1) _ w h with h | h
    · have hle : (i * 6) % 2 ^ 32 ≤ i * 6 := Nat.mod_le _ _
      simp only [loopBody, List.mem_append, List.mem_cons, List.mem_singleton,
        List.not_mem_nil, or_false] at h
      rcases h with h | h
      · exact Or.inl h
      · right; omega
    · right; omega

theorem convLoop_reads (inp : Buffer) (mode : Nat) (k : Nat) :
    ∀ (i : Nat) (st : ConvState) (r : Nat), r ∈ (convLoop inp mode k i st).reads →
      r ∈ st.reads ∨ r < 4 * (i + k) := by
  induction k with
  | zero => intro i st w h; exact Or.inl h
  | succ k ih =>
    intro i st w h
    rw [convLoop] at h
    rcases ih (i + 1) _ w h with h | h
    · have hle : (i * 4) % 2 ^ 32 ≤ i * 4 := Nat.mod_le _ _
      simp only [loopBody, List.mem_append, List.mem_cons, List.mem_singleton,
        List.not_mem_nil, or_false] at h
      rcases h with h | h
      · exact Or.inl h
      · right; omega
    · right; omega

theorem loopBody_bytes (inp : Buffer) (mode m : Nat) (st : ConvState) (h6 : m * 6 < 2 ^ 32) :
    let px0 := if mode ≠ 0 then __convert_yuv2bgr (inp (4 * m)) (inp (4 * m + 1)) (inp (4 * m + 3))
      else __convert_yuv2rgb (inp (4 * m)) (inp (4 * m + 1)) (inp (4 * m + 3))
    let px1 := if mode ≠ 0 then __convert_yuv2bgr (inp (4 * m + 2)) (inp (4 * m + 1)) (inp (4 * m + 3))
      else __convert_yuv2rgb (inp (4 * m + 2)) (inp (4 * m + 1)) (inp (4 * m + 3))
    (loopBody inp mode m st).out (6 * m) = px0.1 ∧
    (loopBody inp mode m st).out (6 * m + 1) = px0.2.1 ∧
    (loopBody inp mode m st).out (6 * m + 2) = px0.2.2 ∧
    (loopBody inp mode m st).out (6 * m + 3) = px1.1 ∧
    (loopBody inp mode m st).out (6 * m + 4) = px1.2.1 ∧
    (loopBody inp mode m st).out (6 * m + 5) = px1.2.2 := by
  have hm6 : (m * 6) % 2 ^ 32 = m * 6 := Nat.mod_eq_of_lt h6
  have hm4 : (m * 4) % 2 ^ 32 = m * 4 := Nat.mod_eq_of_lt (by omega)
  have e6 : 6 * m = m * 6 := by omega
  have e4 : 4 * m = m * 4 := by omega
  simp only [loopBody, memcpy3, hm6, hm4, e6, e4]
  refine ⟨?_, ?_, ?_, ?_, ?_, ?_⟩ <;> (split_ifs <;> first | rfl | omega)

/-- The six bytes written for macropixel `i` are the results of the two converter calls. -/
theorem macropixel_bytes (inp out : Buffer) (x_res y_res bgr_mode i : Nat)
    (hx : 0 < x_res) (hy : 0 < y_res) (hsz : 3 * x_res * y_res < 2 ^ 32)
    (hi : i < x_res * y_res / 2) :
    ∃ out', (yuv422_to_rgb24 (some inp) (some out) x_res y_res bgr_mode).out = some out' ∧
      (out' (6 * i), out' (6 * i + 1), out' (6 * i + 2)) =
        (if bgr_mode ≠ 0 then
          __convert_yuv2bgr (inp (4 * i)) (inp (4 * i + 1)) (inp (4 * i + 3))
        else __convert_yuv2rgb (inp (4 * i)) (inp (4 * i + 1)) (inp (4 * i + 3))) ∧
      (out' (6 * i + 3), out' (6 * i + 4), out' (6 * i + 5)) =
        (if bgr_mode ≠ 0 then
          __convert_yuv2bgr (inp (4 * i + 2)) (inp (4 * i + 1)) (inp (4 * i + 3))
        else __convert_yuv2rgb (inp (4 * i + 2)) (inp (4 * i + 1)) (inp (4 * i + 3))) := by
  have hxy : (x_res * y_res) % 2 ^ 32 = x_res * y_res := by
    apply Nat.mod_eq_of_lt
    have : x_res * y_res ≤ 3 * x_res * y_res := by nlinarith
    omega
  have hmac : ((x_res * y_res) % 2 ^ 32) >>> 1 = x_res * y_res / 2 := by
    rw [hxy, Nat.shiftRight_eq_div_pow]
  have hb : (0 + x_res * y_res / 2) * 6 ≤ 2 ^ 32 := by
    have : 3 * x_res * y_res = 3 * (x_res * y_res) := by ring
    omega
  have hne : ¬ (x_res = 0 ∨ y_res = 0) := by omega
  have hat := fun t (ht : t < 6) =>
    convLoop_out_at inp bgr_mode (x_res * y_res / 2) 0 ⟨out, [], []⟩ i t hb (Nat.zero_le _)
      (by omega) ht
  have hbytes := loopBody_bytes inp bgr_mode i ⟨out, [], []⟩ (by omega)
  simp only at hbytes
  obtain ⟨b0, b1, b2, b3, b4, b5⟩ := hbytes
  have a0 := hat 0 (by omega)
  rw [Nat.add_zero] at a0
  refine ⟨(convLoop inp bgr_mode (x_res * y_res / 2) 0 ⟨out, [], []⟩).out, ?_, ?_, ?_⟩
  · simp only [yuv422_to_rgb24, hmac, if_neg hne]
  · rw [a0, hat 1 (by omega), hat 2 (by omega), b0, b1, b2]
  · rw [hat 3 (by omega), hat 4 (by omega), hat 5 (by omega), b3, b4, b5]

theorem specTriplet_of_convert (bgr_mode : Nat) (y u v : UChar) :
    let px := if bgr_mode ≠ 0 then __convert_yuv2bgr y u v else __convert_yuv2rgb y u v
    ((px.1.val : Int), (px.2.1.val : Int), (px.2.2.val : Int)) =
      specTriplet bgr_mode y.val u.val v.val := by
  unfold specTriplet
  by_cases hm : bgr_mode = 0
  · simp only [hm, ne_eq, not_true_eq_false, if_false, if_true]
    obtain ⟨c0, c1, c2⟩ := convert_yuv2rgb_val y u v
    rw [c0, c1, c2]
  · simp only [hm, ne_eq, not_false_eq_true, if_false, if_true]
    obtain ⟨c0, c1, c2⟩ := convert_yuv2bgr_val y u v
    rw [c0, c1, c2]

/-- C1. For non-null buffers, `x_res > 0`, `y_res > 0`, `3 * x_res * y_res < 2^32` and a
macropixel index `i < x_res * y_res / 2`, with `(Y0, U, Y1, V)` the input bytes `4i .. 4i+3`:
the call leaves in output bytes `6i .. 6i+2` the triplet for `Y0` and in `6i+3 .. 6i+5` the
triplet for `Y1`, each channel being the value of the specification's formula saturated to
`[0, 255]` (floor shift), ordered red, green, blue for `bgr_mode = 0` and blue, green, red
otherwise; every such byte lies in `[0, 255]` as the saturated value itself. -/
theorem yuv422_to_rgb24_pixels (inp out : Buffer) (x_res y_res bgr_mode i : Nat)
    (hx : 0 < x_res) (hy : 0 < y_res) (hsz : 3 * x_res * y_res < 2 ^ 32)
    (hi : i < x_res * y_res / 2) :
    ∃ out', (yuv422_to_rgb24 (some inp) (some out) x_res y_res bgr_mode).out = some out' ∧
      (((out' (6 * i)).val : Int), ((out' (6 * i + 1)).val : Int), ((out' (6 * i + 2)).val : Int))
        = specTriplet bgr_mode (inp (4 * i)).val (inp (4 * i + 1)).val (inp (4 * i + 3)).val ∧
      (((out' (6 * i + 3)).val : Int), ((out' (6 * i + 4)).val : Int),
          ((out' (6 * i + 5)).val : Int))
        = specTriplet bgr_mode (inp (4 * i + 2)).val (inp (4 * i + 1)).val (inp (4 * i + 3)).val ∧
      ∀ t, t < 6 → (0 : Int) ≤ (out' (6 * i + t)).val ∧ ((out' (6 * i + t)).val : Int) ≤ 255 := by
  obtain ⟨out', ho, h0, h1⟩ := macropixel_bytes inp out x_res y_res bgr_mode i hx hy hsz hi
  refine ⟨out', ho, ?_, ?_, ?_⟩
  · have := specTriplet_of_convert bgr_mode (inp (4 * i)) (inp (4 * i + 1)) (inp (4 * i + 3))
    simp only [← h0] at this
    exact this
  · have := specTriplet_of_convert bgr_mode (inp (4 * i + 2)) (inp (4 * i + 1)) (inp (4 * i + 3))
    simp only [← h1] at this
    exact this
  · intro t _
    have := (out' (6 * i + t)).isLt
    omega

theorem yuv422_to_rgb24_pixels_witness :
    ∃ out', (yuv422_to_rgb24 (some greyBuf) (some zeroBuf) 2 1 0).out = some out' ∧
      (((out' (6 * 0)).val : Int), ((out' (6 * 0 + 1)).val : Int), ((out' (6 * 0 + 2)).val : Int))
        = specTriplet 0 (greyBuf (4 * 0)).val (greyBuf (4 * 0 + 1)).val (greyBuf (4 * 0 + 3)).val ∧
      (((out' (6 * 0 + 3)).val : Int), ((out' (6 * 0 + 4)).val : Int),
          ((out' (6 * 0 + 5)).val : Int))
        = specTriplet 0 (greyBuf (4 * 0 + 2)).val (greyBuf (4 * 0 + 1)).val
            (greyBuf (4 * 0 + 3)).val ∧
      ∀ t, t < 6 → (0 : Int) ≤ (out' (6 * 0 + t)).val ∧ ((out' (6 * 0 + t)).val : Int) ≤ 255 :=
  yuv422_to_rgb24_pixels greyBuf zeroBuf 2 1 0 0 (by decide) (by decide) (by decide) (by decide)

/-- C2, counterexample. For the 2x1 image whose macropixel is `Y0 = U = Y1 = V = 128`, in
either colour order the first output byte is 130, which differs from 128 by 2, not by at most
1. -/
theorem grey_macropixel_not_within_one :
    greyBuf 0 = 128 ∧ greyBuf 1 = 128 ∧ greyBuf 2 = 128 ∧ greyBuf 3 = 128 ∧
    (∃ out', (yuv422_to_rgb24 (some greyBuf) (some zeroBuf) 2 1 0).out = some out' ∧
      (out' 0).val = 130 ∧ ¬ (Int.natAbs (((out' 0).val : Int) - 128) ≤ 1)) ∧
    (∃ out', (yuv422_to_rgb24 (some greyBuf) (some zeroBuf) 2 1 1).out = some out' ∧
      (out' 0).val = 130 ∧ ¬ (Int.natAbs (((out' 0).val : Int) - 128) ≤ 1)) :=
  ⟨rfl, rfl, rfl, rfl, ⟨_, rfl, by decide, by decide⟩, ⟨_, rfl, by decide, by decide⟩⟩

/-- C2, amended. Under the preconditions of the converter, a macropixel with
`Y0 = U = Y1 = V = 128` yields, in either colour order, two pixels equal to (130, 130, 130):
each of the six output bytes is 130. -/
theorem yuv422_to_rgb24_grey (inp out : Buffer) (x_res y_res bgr_mode i : Nat)
    (hx : 0 < x_res) (hy : 0 < y_res) (hsz : 3 * x_res * y_res < 2 ^ 32)
    (hi : i < x_res * y_res / 2)
    (hY0 : inp (4 * i) = 128) (hU : inp (4 * i + 1) = 128)
    (hY1 : inp (4 * i + 2) = 128) (hV : inp (4 * i + 3) = 128) :
    ∃ out', (yuv422_to_rgb24 (some inp) (some out) x_res y_res bgr_mode).out = some out' ∧
      out' (6 * i) = 130 ∧ out' (6 * i + 1) = 130 ∧ out' (6 * i + 2) = 130 ∧
      out' (6 * i + 3) = 130 ∧ out' (6 * i + 4) = 130 ∧ out' (6 * i + 5) = 130 := by
  obtain ⟨out', ho, h0, h1⟩ := macropixel_bytes inp out x_res y_res bgr_mode i hx hy hsz hi
  have e1 : __convert_yuv2rgb 128 128 128 = (130, 130, 130) := by decide
  have e2 : __convert_yuv2bgr 128 128 128 = (130, 130, 130) := by decide
  rw [hY0, hU, hV, e1, e2, ite_self] at h0
  rw [hY1, hU, hV, e1, e2, ite_self] at h1
  simp only [Prod.mk.injEq] at h0 h1
  exact ⟨out', ho, h0.1, h0.2.1, h0.2.2, h1.1, h1.2.1, h1.2.2⟩

theorem yuv422_to_rgb24_grey_witness :
    ∃ out', (yuv422_to_rgb24 (some greyBuf) (some zeroBuf) 2 1 1).out = some out' ∧
      out' (6 * 0) = 130 ∧ out' (6 * 0 + 1) = 130 ∧ out' (6 * 0 + 2) = 130 ∧
      out' (6 * 0 + 3) = 130 ∧ out' (6 * 0 + 4) = 130 ∧ out' (6 * 0 + 5) = 130 :=
  yuv422_to_rgb24_grey greyBuf zeroBuf 2 1 1 0 (by decide) (by decide) (by decide) (by decide)
    rfl rfl rfl rfl

/-- C3. When `x_res = 0`, `y_res = 0` or a buffer pointer is null, the call writes (and reads)
nothing and the output buffer is unchanged. Otherwise every offset read is below
`x_res * y_res * 2`, every offset written is below `x_res * y_res * 3`, and every output byte at
an offset of at least `6 * (x_res * y_res / 2)` is unchanged. -/
theorem yuv422_to_rgb24_frame (yuv422_buf bgr24_buf : Option Buffer)
    (x_res y_res bgr_mode : Nat) :
    ((x_res = 0 ∨ y_res = 0 ∨ yuv422_buf = none ∨ bgr24_buf = none) →
      (yuv422_to_rgb24 yuv422_buf bgr24_buf x_res y_res bgr_mode).writes = [] ∧
      (yuv422_to_rgb24 yuv422_buf bgr24_buf x_res y_res bgr_mode).reads = [] ∧
      (yuv422_to_rgb24 yuv422_buf bgr24_buf x_res y_res bgr_mode).out = bgr24_buf) ∧
    (∀ inp out, yuv422_buf = some inp → bgr24_buf = some out → x_res ≠ 0 → y_res ≠ 0 →
      (∀ r ∈ (yuv422_to_rgb24 yuv422_buf bgr24_buf x_res y_res bgr_mode).reads,
        r < x_res * y_res * 2) ∧
      (∀ w ∈ (yuv422_to_rgb24 yuv422_buf bgr24_buf x_res y_res bgr_mode).writes,
        w < x_res * y_res * 3) ∧
      ∃ out', (yuv422_to_rgb24 yuv422_buf bgr24_buf x_res y_res bgr_mode).out = some out' ∧
        ∀ j, 6 * (x_res * y_res / 2) ≤ j → out' j = out j) := by
  have hmle : ((x_res * y_res) % 2 ^ 32) >>> 1 ≤ x_res * y_res / 2 := by
    rw [Nat.shiftRight_eq_div_pow]
    have := Nat.mod_le (x_res * y_res) (2 ^ 32)
    omega
  constructor
  · intro h
    cases hi : yuv422_buf with
    | none => cases bgr24_buf <;> simp [yuv422_to_rgb24]
    | some inp =>
      cases ho : bgr24_buf with
      | none => simp [yuv422_to_rgb24]
      | some out =>
        have hz : x_res = 0 ∨ y_res = 0 := by
          rcases h with h | h | h | h
          · exact Or.inl h
          · exact Or.inr h
          · simp [hi] at h
          · simp [ho] at h
        simp [yuv422_to_rgb24, hz]
  · intro inp out hi ho hx hy
    subst hi ho
    have hne : ¬ (x_res = 0 ∨ y_res = 0) := by omega
    simp only [yuv422_to_rgb24, if_neg hne]
    refine ⟨?_, ?_, _, rfl, ?_⟩
    · intro r hr
      rcases convLoop_reads inp bgr_mode _ 0 ⟨out, [], []⟩ r hr with h | h
      · simp at h
      · omega
    · intro w hw
      rcases convLoop_writes inp bgr_mode _ 0 ⟨out, [], []⟩ w hw with h | h
      · simp at h
      · omega
    · intro j hj
      exact convLoop_out_ge inp bgr_mode _ 0 ⟨out, [], []⟩ j (by omega)

theorem yuv422_to_rgb24_frame_witness :
    (yuv422_to_rgb24 (some greyBuf) none 0 1 0).writes = [] ∧
    (∀ w ∈ (yuv422_to_rgb24 (some greyBuf) (some zeroBuf) 2 2 0).writes, w < 2 * 2 * 3) :=
  ⟨((yuv422_to_rgb24_frame (some greyBuf) none 0 1 0).1 (Or.inl rfl)).1,
   ((yuv422_to_rgb24_frame (some greyBuf) (some zeroBuf) 2 2 0).2 greyBuf zeroBuf rfl rfl
      (by decide) (by decide)).2.1⟩

/-! ## Theorems: frame-rate encoder -/

theorem FLT_EPSILON_pos : 0 < FLT_EPSILON := by unfold FLT_EPSILON; positivity

theorem eps_fuel : (1 : ℚ) ≤ 2 ^ 23 * FLT_EPSILON := by norm_num [FLT_EPSILON]

theorem eps_range : (1 : ℚ) ≤ 2 ^ 31 * FLT_EPSILON := by norm_num [FLT_EPSILON]

/-- A value that fits a 32-bit `int` is stored unchanged. -/
theorem wrapInt32_of_range {z : ℤ} (h1 : -(2 ^ 31) ≤ z) (h2 : z < 2 ^ 31) : wrapInt32 z = z := by
  unfold wrapInt32; omega

/-- A non-negative `__u32`-sized value is converted unchanged. -/
theorem toU32_of_range {z : ℤ} (h1 : 0 ≤ z) (h2 : z < 2 ^ 32) : toU32 z = z := by
  unfold toU32; omega

/-- Within the range of `int` the cast of a non-negative value is the floor. -/
theorem truncToInt_of_nonneg {f : ℚ} (h : 0 ≤ f) (h2 : f < 2 ^ 31) : truncToInt f = ⌊f⌋ := by
  have h0 : (0 : ℤ) ≤ ⌊f⌋ := Int.floor_nonneg.mpr h
  have h1 : ⌊f⌋ < 2 ^ 31 := Int.floor_lt.mpr (by exact_mod_cast h2)
  unfold truncToInt INT_MIN INT_MAX
  simp only [if_pos h]
  rw [if_pos ⟨by omega, by omega⟩]

/-- Beyond the range of `int` the cast delivers `INT_MIN`. -/
theorem truncToInt_of_ge {f : ℚ} (h : 2 ^ 31 ≤ f) : truncToInt f = INT_MIN := by
  have h0 : (0 : ℚ) ≤ f := le_trans (by positivity) h
  have h1 : (2 : ℤ) ^ 31 ≤ ⌊f⌋ := Int.le_floor.mpr (by exact_mod_cast h)
  unfold truncToInt INT_MIN INT_MAX
  simp only [if_pos h0]
  rw [if_neg (by omega)]

/-- Within the range of `int` the tested fractional part `fabs(f - whole)` lies in `[0, 1)`. -/
theorem fracPart_bounds (f : ℚ) (hf : |f| < 2 ^ 31) :
    0 ≤ |f - truncToInt f| ∧ |f - truncToInt f| < 1 := by
  refine ⟨abs_nonneg _, ?_⟩
  obtain ⟨hlo, hhi⟩ := abs_lt.mp hf
  by_cases h : 0 ≤ f
  · rw [truncToInt_of_nonneg h hhi]
    have h1 := Int.floor_le f
    have h2 := Int.lt_floor_add_one f
    rw [abs_lt]; constructor <;> linarith
  · have hneg : 0 ≤ -f := by linarith
    have h0 : (0 : ℤ) ≤ ⌊-f⌋ := Int.floor_nonneg.mpr hneg
    have h3 : ⌊-f⌋ < 2 ^ 31 := Int.floor_lt.mpr (by push_cast; linarith)
    have hT : truncToInt f = -⌊-f⌋ := by
      unfold truncToInt INT_MIN INT_MAX
      simp only [if_neg h]
      rw [if_pos ⟨by omega, by omega⟩]
    rw [hT]
    have h1 := Int.floor_le (-f)
    have h2 := Int.lt_floor_add_one (-f)
    push_cast
    rw [abs_lt]; constructor <;> linarith

theorem rec_base (fuel : Nat) (f p : ℚ) (h : ¬ |f - truncToInt f| > p) :
    float_to_fraction_recursive (fuel + 1) f p = some (truncToInt f, 0, 1) := by
  simp only [float_to_fraction_recursive, if_neg h]

theorem rec_step (fuel : Nat) (f p : ℚ) (h : |f - truncToInt f| > p) :
    float_to_fraction_recursive (fuel + 1) f p =
      match float_to_fraction_recursive fuel (1 / |f - truncToInt f|)
          (p + p / |f - truncToInt f|) with
      | none => none
      | some (a, n, d) => some (truncToInt f, d, wrapInt32 (wrapInt32 (d * a) + n)) := by
  simp only [float_to_fraction_recursive, if_pos h]

theorem nested_base (fuel : Nat) (f p : ℚ) (h : ¬ |f - truncToInt f| > p) :
    nestedCalls (fuel + 1) f p = some 0 := by
  simp only [nestedCalls, if_neg h]

theorem nested_step (fuel : Nat) (f p : ℚ) (h : |f - truncToInt f| > p) :
    nestedCalls (fuel + 1) f p =
      match nestedCalls fuel (1 / |f - truncToInt f|) (p + p / |f - truncToInt f|) with
      | none => none
      | some k => some (k + 1) := by
  simp only [nestedCalls, if_pos h]

/-- When the tested part is below 1, a recursive call gets a tolerance at least twice the
current one. -/
theorem tolerance_doubles (f p : ℚ) (hp : 0 < p) (hg : |f - truncToInt f| < 1)
    (h : |f - truncToInt f| > p) : 2 * p ≤ p + p / |f - truncToInt f| := by
  have hg0 : 0 < |f - truncToInt f| := lt_trans hp h
  have : p ≤ p / |f - truncToInt f| := by
    rw [le_div_iff₀ hg0]
    nlinarith
  linarith

/-- The tolerance never shrinks. -/
theorem tolerance_grows (f p : ℚ) (hp : 0 < p) (h : |f - truncToInt f| > p) :
    p < p + p / |f - truncToInt f| := by
  have hg0 : 0 < |f - truncToInt f| := lt_trans hp h
  have : 0 < p / |f - truncToInt f| := div_pos hp hg0
  linarith

/-- The argument of a recursive call lies in `(0, 1 / p)`, hence within the range of `int` when
`p ≥ 2^-31`. -/
theorem child_range (f p : ℚ) (hp : 0 < p) (hp31 : 1 ≤ 2 ^ 31 * p)
    (h : |f - truncToInt f| > p) :
    0 < 1 / |f - truncToInt f| ∧ |(1 / |f - truncToInt f|)| < 2 ^ 31 := by
  have hg0 : 0 < |f - truncToInt f| := lt_trans hp h
  have h1 : 0 < 1 / |f - truncToInt f| := by positivity
  refine ⟨h1, ?_⟩
  rw [abs_of_pos h1, div_lt_iff₀ hg0]
  nlinarith

/-- Wherever the recursion returns, so does the counting recursion, and conversely. -/
theorem rec_of_nested : ∀ (fuel : Nat) (f p : ℚ) (k : Nat), nestedCalls fuel f p = some k →
    ∃ r, float_to_fraction_recursive fuel f p = some r := by
  intro fuel
  induction fuel with
  | zero => intro f p k h; simp [nestedCalls] at h
  | succ m ih =>
    intro f p k h
    by_cases hg : |f - truncToInt f| > p
    · rw [nested_step _ f p hg] at h
      rw [rec_step _ f p hg]
      cases hc : nestedCalls m (1 / |f - truncToInt f|) (p + p / |f - truncToInt f|) with
      | none => rw [hc] at h; simp at h
      | some c =>
        obtain ⟨⟨a, n, d⟩, hr⟩ := ih _ _ c hc
        rw [hr]; exact ⟨_, rfl⟩
    · exact ⟨_, rec_base _ f p hg⟩

theorem rec_fuel_succ : ∀ (fuel : Nat) (f p : ℚ) (r : ℤ × ℤ × ℤ),
    float_to_fraction_recursive fuel f p = some r →
    float_to_fraction_recursive (fuel + 1) f p = some r := by
  intro fuel
  induction fuel with
  | zero => intro f p r h; simp [float_to_fraction_recursive] at h
  | succ k ih =>
    intro f p r h
    by_cases hg : |f - truncToInt f| > p
    · rw [rec_step _ f p hg] at h
      rw [rec_step _ f p hg]
      cases hc : float_to_fraction_recursive k (1 / |f - truncToInt f|)
          (p + p / |f - truncToInt f|) with
      | none => rw [hc] at h; simp at h
      | some c => rw [hc] at h; rw [ih _ _ c hc]; exact h
    · rw [rec_base _ f p hg] at h
      rw [rec_base _ f p hg]; exact h

theorem rec_fuel_mono (fuel fuel' : Nat) (f p : ℚ) (r : ℤ × ℤ × ℤ) (hle : fuel ≤ fuel')
    (h : float_to_fraction_recursive fuel f p = some r) :
    float_to_fraction_recursive fuel' f p = some r := by
  induction hle with
  | refl => exact h
  | step _ ih => exact rec_fuel_succ _ f p r ih

theorem nestedCalls_fuel_succ : ∀ (fuel : Nat) (f p : ℚ) (k : Nat),
    nestedCalls fuel f p = some k → nestedCalls (fuel + 1) f p = some k := by
  intro fuel
  induction fuel with
  | zero => intro f p r h; simp [nestedCalls] at h
  | succ m ih =>
    intro f p r h
    by_cases hg : |f - truncToInt f| > p
    · rw [nested_step _ f p hg] at h ⊢
      cases hc : nestedCalls m (1 / |f - truncToInt f|) (p + p / |f - truncToInt f|) with
      | none => rw [hc] at h; simp at h
      | some c => rw [hc] at h; rw [ih _ _ c hc]; exact h
    · rw [nested_base _ f p hg] at h ⊢
      exact h

theorem nestedCalls_fuel_mono (fuel fuel' : Nat) (f p : ℚ) (k : Nat) (hle : fuel ≤ fuel')
    (h : nestedCalls fuel f p = some k) : nestedCalls fuel' f p = some k := by
  induction hle with
  | refl => exact h
  | step _ ih => exact nestedCalls_fuel_succ _ f p k ih

/-- While every cast stays within the range of `int` (tested part below 1, `p ≥ 2^-31`), the
recursion started with `2^N * p ≥ 1` makes at most `N` nested calls. -/
theorem nestedCalls_bound : ∀ (N : Nat) (f p : ℚ), 0 < p → 1 ≤ 2 ^ 31 * p →
    |f - truncToInt f| < 1 → 1 ≤ 2 ^ N * p →
    ∃ k, nestedCalls (N + 1) f p = some k ∧ k ≤ N := by
  intro N
  induction N with
  | zero =>
    intro f p _ _ hg h1
    have : ¬ |f - truncToInt f| > p := by simp at h1; simp; linarith
    exact ⟨0, nested_base _ f p this, le_refl _⟩
  | succ N ih =>
    intro f p hp hp31 hg h1
    by_cases h : |f - truncToInt f| > p
    · have h2 := tolerance_doubles f p hp hg h
      have hpos : (0 : ℚ) < 2 ^ N := by positivity
      have h3 : 1 ≤ 2 ^ N * (p + p / |f - truncToInt f|) := by
        calc (1 : ℚ) ≤ 2 ^ (N + 1) * p := h1
          _ = 2 ^ N * (2 * p) := by ring
          _ ≤ 2 ^ N * (p + p / |f - truncToInt f|) := mul_le_mul_of_nonneg_left h2 hpos.le
      have h4 : 1 ≤ 2 ^ 31 * (p + p / |f - truncToInt f|) := by nlinarith
      obtain ⟨_, hcr⟩ := child_range f p hp hp31 h
      obtain ⟨k, hk, hkN⟩ := ih (1 / |f - truncToInt f|) _ (by linarith) h4
        (fracPart_bounds _ hcr).2 h3
      refine ⟨k + 1, ?_, by omega⟩
      rw [nested_step _ f p h, hk]
    · exact ⟨0, nested_base _ f p h, Nat.zero_le _⟩

/-- For every `f` and every `p > 0` with `2^N * p ≥ 1` the recursion makes at most `2 * N + 1`
nested calls: a call whose cast left the range of `int` is followed by one whose cast does
not, and over the two the tolerance at least doubles. -/
theorem nestedCalls_general : ∀ (N : Nat) (f p : ℚ), 0 < p → 1 ≤ 2 ^ N * p →
    ∃ k, nestedCalls (2 * N + 2) f p = some k := by
  have child_small : ∀ (f p : ℚ), 0 < p → 1 ≤ |f - truncToInt f| → |f - truncToInt f| > p →
      |1 / |f - truncToInt f| - truncToInt (1 / |f - truncToInt f|)| < 1 := by
    intro f p hp hg1 h
    have hg0 : 0 < |f - truncToInt f| := lt_trans hp h
    have h1 : 0 < 1 / |f - truncToInt f| := by positivity
    have h2 : 1 / |f - truncToInt f| ≤ 1 := by rw [div_le_iff₀ hg0]; linarith
    apply (fracPart_bounds _ _).2
    rw [abs_of_pos h1]
    calc 1 / |f - truncToInt f| ≤ 1 := h2
      _ < 2 ^ 31 := by norm_num
  intro N
  induction N with
  | zero =>
    intro f p hp h1
    have hp1 : 1 ≤ p := by simpa using h1
    by_cases h : |f - truncToInt f| > p
    · have hchild := child_small f p hp (by linarith) h
      have hgrow := tolerance_grows f p hp h
      have hb : ¬ |1 / |f - truncToInt f| - truncToInt (1 / |f - truncToInt f|)|
          > p + p / |f - truncToInt f| := by
        simp only [gt_iff_lt, not_lt]; linarith
      exact ⟨1, by rw [nested_step _ f p h, nested_base _ _ _ hb]⟩
    · exact ⟨0, nested_base _ f p h⟩
  | succ N ih =>
    intro f p hp h1
    have hpos : (0 : ℚ) < 2 ^ N := by positivity
    have key : ∀ q : ℚ, 2 * p ≤ q → 1 ≤ 2 ^ N * q := by
      intro q hq
      calc (1 : ℚ) ≤ 2 ^ (N + 1) * p := h1
        _ = 2 ^ N * (2 * p) := by ring
        _ ≤ 2 ^ N * q := mul_le_mul_of_nonneg_left hq hpos.le
    by_cases h : |f - truncToInt f| > p
    · by_cases hg : |f - truncToInt f| < 1
      · have h2 := tolerance_doubles f p hp hg h
        obtain ⟨k, hk⟩ := ih (1 / |f - truncToInt f|) _ (by linarith) (key _ h2)
        have hk' := nestedCalls_fuel_succ _ _ _ _ hk
        exact ⟨k + 1, by
          rw [show 2 * (N + 1) + 2 = (2 * N + 2 + 1) + 1 by ring, nested_step _ f p h, hk']⟩
      · have hg1 : 1 ≤ |f - truncToInt f| := not_lt.mp hg
        have hchild := child_small f p hp hg1 h
        have hgrow := tolerance_grows f p hp h
        have hp' : 0 < p + p / |f - truncToInt f| := by linarith
        by_cases h' : |1 / |f - truncToInt f| - truncToInt (1 / |f - truncToInt f|)|
            > p + p / |f - truncToInt f|
        · have h2 := tolerance_doubles _ _ hp' hchild h'
          have h3 : 2 * p ≤ (p + p / |f - truncToInt f|) + (p + p / |f - truncToInt f|) /
              |1 / |f - truncToInt f| - truncToInt (1 / |f - truncToInt f|)| := by linarith
          obtain ⟨k, hk⟩ := ih
            (1 / |1 / |f - truncToInt f| - truncToInt (1 / |f - truncToInt f|)|) _
            (by linarith) (key _ h3)
          exact ⟨k + 1 + 1, by
            rw [show 2 * (N + 1) + 2 = (2 * N + 2 + 1) + 1 by ring, nested_step _ f p h,
              nested_step _ _ _ h', hk]⟩
        · exact ⟨1, by
            rw [show 2 * (N + 1) + 2 = (2 * N + 2 + 1) + 1 by ring, nested_step _ f p h,
              nested_base _ _ _ h']⟩
    · exact ⟨0, nested_base _ f p h⟩

/-- The invariant of the continued-fraction recursion while every cast stays within the range
of `int` (tested part below 1, `p ≥ 2^-31`).  With `g` the tested fractional part: the outputs
satisfy `0 ≤ num ≤ den`, `1 ≤ den`, and when the call recursed, `den * p < 1` (so no `int`
operation overflows) and there is a product `P` of the exact intermediate quotients with
`|den * g - num| ≤ p * (1 + g) * P`, `P ≤ den`, `g * P ≤ num`. -/
theorem cf_invariant : ∀ (fuel : Nat) (f p : ℚ) (w n d : ℤ), 0 < p → 1 ≤ 2 ^ 31 * p →
    |f - truncToInt f| < 1 →
    float_to_fraction_recursive fuel f p = some (w, n, d) →
    w = truncToInt f ∧ 0 ≤ n ∧ 1 ≤ d ∧ n ≤ d ∧
    (¬ |f - truncToInt f| > p → n = 0 ∧ d = 1) ∧
    (|f - truncToInt f| > p → 1 ≤ n ∧ (d : ℚ) * p < 1 ∧ ∃ P : ℚ, 0 ≤ P ∧
      |(d : ℚ) * |f - truncToInt f| - n| ≤ p * (1 + |f - truncToInt f|) * P ∧
      P ≤ d ∧ |f - truncToInt f| * P ≤ n) := by
  intro fuel
  induction fuel with
  | zero => intro f p w n d _ _ _ h; simp [float_to_fraction_recursive] at h
  | succ k ih =>
    intro f p w n d hp hp31 hg1 h
    by_cases hg : |f - truncToInt f| > p
    · rw [rec_step _ f p hg] at h
      obtain ⟨hcpos, hcr⟩ := child_range f p hp hp31 hg
      have hcg := (fracPart_bounds _ hcr).2
      have hcT := truncToInt_of_nonneg hcpos.le (lt_of_abs_lt hcr)
      generalize hgdef : |f - truncToInt f| = g at h hg hg1 hcpos hcr hcg hcT ⊢
      have hg0 : 0 < g := lt_trans hp hg
      cases hc : float_to_fraction_recursive k (1 / g) (p + p / g) with
      | none => rw [hc] at h; simp at h
      | some c =>
        obtain ⟨a, n', d'⟩ := c
        rw [hc] at h
        simp only [Option.some.injEq, Prod.mk.injEq] at h
        obtain ⟨hw, hn, hd⟩ := h
        have hp' : 0 < p + p / g := by positivity
        have hpx : p + p / g = p * (1 + 1 / g) := by ring
        have hx1 : 1 < 1 / g := by rw [lt_div_iff₀ hg0]; linarith
        have hxg : g * (1 / g) = 1 := by field_simp
        have hpxlt : p * (1 / g) < 1 := by
          rw [mul_one_div, div_lt_iff₀ hg0]; linarith
        have hp31' : 1 ≤ 2 ^ 31 * (p + p / g) := by
          have : 0 < p / g := div_pos hp hg0
          nlinarith
        obtain ⟨ha, hn'0, hd'1, hn'd', hbase, hstep⟩ :=
          ih (1 / g) (p + p / g) a n' d' hp' hp31' hcg hc
        rw [hcT] at ha
        have ha1 : (1 : ℤ) ≤ a := by rw [ha]; exact Int.le_floor.mpr (by exact_mod_cast hx1.le)
        have hfl := Int.floor_le (1 / g)
        have hfl2 := Int.lt_floor_add_one (1 / g)
        rw [← ha] at hfl hfl2
        have hT : truncToInt (1 / g) = a := by rw [hcT, ha]
        rw [hT] at hbase hstep
        have habs : |1 / g - (a : ℚ)| = 1 / g - a := abs_of_nonneg (by linarith)
        rw [habs] at hbase hstep
        generalize hxdef : 1 / g = x at *
        have ha1q : (1 : ℚ) ≤ a := by exact_mod_cast ha1
        have hd'1q : (1 : ℚ) ≤ d' := by exact_mod_cast hd'1
        have hn'0q : (0 : ℚ) ≤ n' := by exact_mod_cast hn'0
        have hn'd'q : (n' : ℚ) ≤ d' := by exact_mod_cast hn'd'
        -- the unwrapped denominator stays below `1 / p`
        have hDp : (((d' * a + n' : ℤ)) : ℚ) * p < 1 := by
          push_cast
          by_cases hcb : x - a > p + p / g
          · obtain ⟨_, hd'p, _⟩ := hstep hcb
            have e1 : ((d' : ℚ) * a + n') ≤ d' * (1 + x) := by nlinarith
            calc ((d' : ℚ) * a + n') * p ≤ d' * (1 + x) * p :=
                  mul_le_mul_of_nonneg_right e1 hp.le
              _ = d' * (p + p / g) := by rw [hpx]; ring
              _ < 1 := hd'p
          · obtain ⟨hn'e, hd'e⟩ := hbase hcb
            subst hn'e hd'e
            push_cast
            nlinarith
        have hDlt : d' * a + n' < 2 ^ 31 := by
          have h1 : (((d' * a + n' : ℤ)) : ℚ) < 2 ^ 31 := by
            by_contra hcon
            have hcon' : (2 : ℚ) ^ 31 ≤ ((d' * a + n' : ℤ) : ℚ) := not_lt.mp hcon
            have : (2 : ℚ) ^ 31 * p ≤ ((d' * a + n' : ℤ) : ℚ) * p :=
              mul_le_mul_of_nonneg_right hcon' hp.le
            linarith
          exact_mod_cast h1
        have hda0 : 0 ≤ d' * a := by nlinarith
        have hwrap : wrapInt32 (wrapInt32 (d' * a) + n') = d' * a + n' := by
          have e1 : wrapInt32 (d' * a) = d' * a := wrapInt32_of_range (by omega) (by omega)
          rw [e1]
          exact wrapInt32_of_range (by omega) hDlt
        rw [hwrap] at hd
        refine ⟨hw.symm, by omega, ?_, ?_, fun hc' => absurd hg hc',
          fun _ => ⟨by omega, by rw [← hd]; exact hDp, ?_⟩⟩
        · rw [← hd]; nlinarith
        · rw [← hd, ← hn]; nlinarith
        · clear hDp hDlt hda0 hwrap hcr hcg hcT hp31 hp31' hpxlt
          subst hn hd
          push_cast
          have hz : (d' : ℚ) * a * g + n' * g - d' = -(g * (d' * (x - a) - n')) := by
            have : (d' : ℚ) * (g * x) = d' := by rw [hxg, mul_one]
            linear_combination this
          have hz' : ((d' : ℚ) * a + n') * g - d' = -(g * (d' * (x - a) - n')) := by
            rw [← hz]; ring
          rw [hz', abs_neg, abs_mul, abs_of_pos hg0]
          by_cases hcb : x - a > p + p / g
          · obtain ⟨_, _, P', hP'0, hP'z, hP'd, hP'n⟩ := hstep hcb
            refine ⟨x * P', mul_nonneg (by linarith) hP'0, ?_, ?_, ?_⟩
            · calc g * |(d' : ℚ) * (x - a) - n'|
                  ≤ g * ((p + p / g) * (1 + (x - a)) * P') :=
                    mul_le_mul_of_nonneg_left hP'z hg0.le
                _ = p * (1 + g) * ((1 + (x - a)) * P') := by
                    rw [hpx]
                    have : g * (p * (1 + x) * (1 + (x - a)) * P')
                        = p * (g + g * x) * ((1 + (x - a)) * P') := by ring
                    rw [this, hxg]; ring
                _ ≤ p * (1 + g) * (x * P') := by
                    apply mul_le_mul_of_nonneg_left _ (by positivity)
                    apply mul_le_mul_of_nonneg_right _ hP'0
                    linarith
            · have : x * P' = (a : ℚ) * P' + (x - a) * P' := by ring
              rw [this]
              have e1 : (a : ℚ) * P' ≤ a * d' := mul_le_mul_of_nonneg_left hP'd (by linarith)
              linarith
            · have : g * (x * P') = (g * x) * P' := by ring
              rw [this, hxg, one_mul]; exact hP'd
          · obtain ⟨hn'e, hd'e⟩ := hbase hcb
            subst hn'e hd'e
            refine ⟨1, by norm_num, ?_, ?_, ?_⟩
            · push_cast
              have hle : x - a ≤ p + p / g := not_lt.mp hcb
              rw [show (1 : ℚ) * (x - a) - 0 = x - a by ring, abs_of_nonneg (by linarith)]
              calc g * (x - a) ≤ g * (p + p / g) := mul_le_mul_of_nonneg_left hle hg0.le
                _ = p * (g + g * x) := by rw [hpx]; ring
                _ = p * (1 + g) * 1 := by rw [hxg]; ring
            · push_cast; linarith
            · push_cast; linarith
    · rw [rec_base _ f p hg] at h
      simp only [Option.some.injEq, Prod.mk.injEq] at h
      obtain ⟨hw, hn, hd⟩ := h
      exact ⟨hw.symm, by omega, by omega, by omega, fun _ => ⟨hn.symm, hd.symm⟩,
        fun hc => absurd hc hg⟩

/-- From `FLT_EPSILON`, with the argument within the range of `int`, the recursion returns
within 24 levels. -/
theorem rec_total_of_range (fuel : Nat) (hf : 24 ≤ fuel) (r : ℚ) (hr : |r| < 2 ^ 31) :
    ∃ w n d, float_to_fraction_recursive fuel r FLT_EPSILON = some (w, n, d) := by
  obtain ⟨k, hk, _⟩ := nestedCalls_bound 23 r FLT_EPSILON FLT_EPSILON_pos eps_range
    (fracPart_bounds r hr).2 eps_fuel
  obtain ⟨⟨w, n, d⟩, h⟩ := rec_of_nested _ _ _ _ hk
  exact ⟨w, n, d, rec_fuel_mono 24 fuel r FLT_EPSILON _ hf h⟩

/-- A rate of `2^31` or more: the cast delivers `INT_MIN`, the tested value is at least `2^32`,
and the single nested call stops at once, leaving `num = 1`, `den = 0`. -/
theorem rec_of_huge (r : ℚ) (h : 2 ^ 31 ≤ r) :
    float_to_fraction_recursive 2 r FLT_EPSILON = some (INT_MIN, 1, 0) := by
  have hT := truncToInt_of_ge h
  have hε := FLT_EPSILON_pos
  have hε' : FLT_EPSILON < 1 := by norm_num [FLT_EPSILON]
  have hg : |r - (truncToInt r : ℚ)| = r + 2 ^ 31 := by
    rw [hT, INT_MIN]; push_cast
    rw [abs_of_nonneg (by linarith)]; ring
  have hgpos : (0 : ℚ) < r + 2 ^ 31 := by linarith
  have hx0 : 0 < 1 / (r + 2 ^ 31) := by positivity
  have hx1 : 1 / (r + 2 ^ 31) < FLT_EPSILON := by
    rw [div_lt_iff₀ hgpos]; rw [FLT_EPSILON]; norm_num; linarith
  have hT' : truncToInt (1 / (r + 2 ^ 31)) = 0 := by
    rw [truncToInt_of_nonneg hx0.le (by linarith)]
    exact Int.floor_eq_iff.mpr ⟨by push_cast; linarith, by push_cast; linarith⟩
  have hpp : 0 < FLT_EPSILON / (r + 2 ^ 31) := by positivity
  have h1 : float_to_fraction_recursive 1 (1 / (r + 2 ^ 31))
      (FLT_EPSILON + FLT_EPSILON / (r + 2 ^ 31)) = some (0, 0, 1) := by
    rw [rec_base, hT']
    rw [hT']; push_cast; rw [sub_zero, abs_of_pos hx0]
    exact not_lt.mpr (by linarith)
  rw [rec_step, hg, h1, hT]
  · rfl
  · rw [hg]; linarith

/-- For every positive rate `float_to_fraction` returns within 24 levels. -/
theorem float_to_fraction_total (fuel : Nat) (hf : 24 ≤ fuel) (r : ℚ) (hr : 0 < r) :
    ∃ num den, float_to_fraction fuel r = some (num, den) ∧
      timeperframe fuel r = some (toU32 den, toU32 num) := by
  have hrec : ∃ w n d, float_to_fraction_recursive fuel r FLT_EPSILON = some (w, n, d) := by
    rcases lt_or_le r (2 ^ 31) with h | h
    · exact rec_total_of_range fuel hf r (by rw [abs_of_pos hr]; exact h)
    · exact ⟨_, _, _, rec_fuel_mono 2 fuel r _ _ (by omega) (rec_of_huge r h)⟩
  obtain ⟨w, n, d, h⟩ := hrec
  refine ⟨wrapInt32 (n + wrapInt32 (w * d)), d, ?_, ?_⟩
  · simp only [float_to_fraction, h]
  · simp only [timeperframe, float_to_fraction, h]

theorem ftf_of_rec (fuel fuel' : Nat) (hf : fuel ≤ fuel') (r : ℚ) (w n d : ℤ)
    (h : float_to_fraction_recursive fuel r FLT_EPSILON = some (w, n, d)) :
    float_to_fraction fuel' r = some (wrapInt32 (n + wrapInt32 (w * d)), d) ∧
      timeperframe fuel' r = some (toU32 d, toU32 (wrapInt32 (n + wrapInt32 (w * d)))) := by
  have h' := rec_fuel_mono fuel fuel' r FLT_EPSILON _ hf h
  constructor
  · simp only [float_to_fraction, h']
  · simp only [timeperframe, float_to_fraction, h']

/-- Beyond the amended range of C7 an `int` product can overflow: for the rate
`4096 + 1 / 1048577` the recursion yields `num = 1`, `den = 1048577`, and
`whole * den = 4096 * 1048577` exceeds `INT_MAX`; the interval handed to the driver is then
`1048577 / 4097`. -/
theorem interval_overflow_example :
    timeperframe 24 (4096 + 1 / 1048577) = some (1048577, 4097) := by
  have hT : truncToInt (4096 + 1 / 1048577) = 4096 := by
    rw [truncToInt_of_nonneg (by norm_num) (by norm_num)]; norm_num
  have hg : |(4096 + 1 / 1048577 : ℚ) - (truncToInt (4096 + 1 / 1048577) : ℚ)|
      = 1 / 1048577 := by
    rw [hT]; norm_num [abs_of_pos]
  have hT' : truncToInt (1 / (1 / 1048577)) = 1048577 := by
    rw [truncToInt_of_nonneg (by norm_num) (by norm_num)]; norm_num
  have h1 : float_to_fraction_recursive 1 (1 / (1 / 1048577))
      (FLT_EPSILON + FLT_EPSILON / (1 / 1048577)) = some (1048577, 0, 1) := by
    rw [rec_base, hT']
    rw [hT']; norm_num [FLT_EPSILON]
  have h2 : float_to_fraction_recursive 2 (4096 + 1 / 1048577) FLT_EPSILON
      = some (4096, 1, 1048577) := by
    rw [rec_step, hg, h1, hT]
    · rfl
    · rw [hg]; norm_num [FLT_EPSILON]
  exact (ftf_of_rec 2 24 (by norm_num) _ _ _ _ h2).2

/-- C9, counterexample. The integer rate `3000000000` does not fit `int`: the encoder yields
`num = 1`, `den = 0` instead of `num = 3000000000`, `den = 1`, and the interval sent is
`0 / 1`. -/
theorem integer_rate_counterexample :
    (0 : ℚ) < 3000000000 ∧ (1 : ℤ) ≤ 3000000000 ∧
    |(3000000000 : ℚ) - ((3000000000 : ℤ) : ℚ)| ≤ FLT_EPSILON ∧
    float_to_fraction 24 3000000000 = some (1, 0) ∧
    timeperframe 24 3000000000 = some (0, 1) ∧
    float_to_fraction 24 3000000000 ≠ some (3000000000, 1) := by
  have h := ftf_of_rec 2 24 (by norm_num) _ _ _ _ (rec_of_huge 3000000000 (by norm_num))
  have e : float_to_fraction 24 3000000000 = some (1, 0) := h.1
  refine ⟨by norm_num, by norm_num, by norm_num [FLT_EPSILON], e, h.2, ?_⟩
  rw [e]; simp

/-- C9, amended. For every positive rate `r` within `FLT_EPSILON` of an integer `n` with
`1 ≤ n ≤ INT_MAX` (in particular for `r = n`), `float_to_fraction` yields `num = n`, `den = 1`,
so the frame interval sent is `1 / n`. -/
theorem near_integer_rate (fuel : Nat) (hf : 2 ≤ fuel) (r : ℚ) (n : ℤ) (hn : 1 ≤ n)
    (hmax : n ≤ INT_MAX) (hr : 0 < r) (hclose : |r - n| ≤ FLT_EPSILON) :
    float_to_fraction fuel r = some (n, 1) ∧ timeperframe fuel r = some (1, n) := by
  have hε : FLT_EPSILON = 1 / 2 ^ 23 := rfl
  have hε0 := FLT_EPSILON_pos
  have hε1 : FLT_EPSILON < 1 / 4 := by rw [hε]; norm_num
  have hn31 : n ≤ 2 ^ 31 - 1 := hmax
  have hn31q : (n : ℚ) ≤ 2 ^ 31 - 1 := by exact_mod_cast hn31
  obtain ⟨hlo, hhi⟩ := abs_le.mp hclose
  have hr31 : r < 2 ^ 31 := by linarith
  have hT0 := truncToInt_of_nonneg hr.le hr31
  have w0 : wrapInt32 n = n := wrapInt32_of_range (by omega) (by omega)
  have w1 : wrapInt32 (0 + wrapInt32 (n * 1)) = n := by
    rw [mul_one, w0, zero_add, w0]
  have w2 : wrapInt32 (1 + wrapInt32 ((n - 1) * 1)) = n := by
    have e : wrapInt32 ((n - 1) * 1) = n - 1 := by
      rw [mul_one]; exact wrapInt32_of_range (by omega) (by omega)
    rw [e, show (1 : ℤ) + (n - 1) = n by ring]
    exact w0
  have u1 : toU32 1 = 1 := by decide
  have u2 : toU32 n = n := toU32_of_range (by omega) (by omega)
  rcases le_or_lt (n : ℚ) r with hge | hlt
  · have hfl : ⌊r⌋ = n := Int.floor_eq_iff.mpr ⟨hge, by linarith⟩
    have hT : truncToInt r = n := by rw [hT0, hfl]
    have h1 : float_to_fraction_recursive 1 r FLT_EPSILON = some (n, 0, 1) := by
      rw [rec_base, hT]
      rw [hT, abs_of_nonneg (by linarith)]
      exact not_lt.mpr (by linarith)
    have := ftf_of_rec 1 fuel (by omega) _ _ _ _ h1
    rw [w1, u1, u2] at this
    exact this
  · have hfl : ⌊r⌋ = n - 1 := Int.floor_eq_iff.mpr ⟨by push_cast; linarith, by push_cast; linarith⟩
    have hT : truncToInt r = n - 1 := by rw [hT0, hfl]
    have hg : |r - ((truncToInt r : ℤ) : ℚ)| = r - n + 1 := by
      rw [hT, abs_of_nonneg (by push_cast; linarith)]; push_cast; ring
    have hgpos : (1 : ℚ) / 2 < r - n + 1 := by linarith
    have hg1 : r - n + 1 < 1 := by linarith
    have hx1 : 1 < 1 / (r - n + 1) := by rw [lt_div_iff₀ (by linarith)]; linarith
    have hx2 : 1 / (r - n + 1) < 2 := by rw [div_lt_iff₀ (by linarith)]; linarith
    have hT' : truncToInt (1 / (r - n + 1)) = 1 := by
      rw [truncToInt_of_nonneg (by linarith) (by linarith)]
      exact Int.floor_eq_iff.mpr ⟨by push_cast; linarith, by push_cast; linarith⟩
    have h1 : float_to_fraction_recursive 1 (1 / (r - n + 1))
        (FLT_EPSILON + FLT_EPSILON / (r - n + 1)) = some (1, 0, 1) := by
      rw [rec_base, hT']
      rw [hT', abs_of_nonneg (by push_cast; linarith)]
      apply not_lt.mpr
      have hpos : (0 : ℚ) < r - n + 1 := by linarith
      have e : (1 : ℚ) / (r - n + 1) - ((1 : ℤ) : ℚ) = (n - r) / (r - n + 1) := by
        field_simp
      have e' : FLT_EPSILON + FLT_EPSILON / (r - n + 1)
          = (FLT_EPSILON * (r - n + 2)) / (r - n + 1) := by
        field_simp; ring
      rw [e, e', div_le_div_iff_of_pos_right hpos]
      nlinarith
    have h2 : float_to_fraction_recursive 2 r FLT_EPSILON = some (n - 1, 1, 1) := by
      rw [rec_step, hg, h1, hT]
      · rfl
      · rw [hg]; linarith
    have := ftf_of_rec 2 fuel hf _ _ _ _ h2
    rw [w2, u1, u2] at this
    exact this

theorem near_integer_rate_witness :
    (1 : ℤ) ≤ 30 ∧ (30 : ℤ) ≤ INT_MAX ∧ |(30 : ℚ) - ((30 : ℤ) : ℚ)| ≤ FLT_EPSILON ∧
    float_to_fraction 24 30 = some (30, 1) ∧ timeperframe 24 30 = some (1, 30) :=
  ⟨by decide, by decide, by norm_num [FLT_EPSILON],
   near_integer_rate 24 (by decide) 30 30 (by decide) (by decide) (by norm_num)
    (by norm_num [FLT_EPSILON])⟩

theorem exists_pow_tolerance (p : ℚ) (hp : 0 < p) : ∃ N : Nat, 1 ≤ 2 ^ N * p := by
  obtain ⟨N, hN⟩ := exists_nat_gt (1 / p)
  refine ⟨N, ?_⟩
  have h1 : (N : ℚ) < 2 ^ N := by exact_mod_cast Nat.lt_two_pow N
  have h2 : 1 / p < 2 ^ N := lt_trans hN h1
  rw [div_lt_iff₀ hp] at h2
  exact h2.le

/-- Started from `FLT_EPSILON`, the recursion makes at most 23 nested calls for every `f`,
also when the first cast leaves the range of `int`: the tested value is then at least 1, the
nested call has an argument in `(0, 1]`, and the call nested in that one starts from a
tolerance of at least `4 * FLT_EPSILON`. -/
theorem nestedCalls_eps (f : ℚ) : ∃ k, nestedCalls 24 f FLT_EPSILON = some k ∧ k ≤ 23 := by
  have hε := FLT_EPSILON_pos
  by_cases hg : |f - truncToInt f| < 1
  · exact nestedCalls_bound 23 f FLT_EPSILON hε eps_range hg eps_fuel
  · have hg1 : 1 ≤ |f - truncToInt f| := not_lt.mp hg
    have hε1 : FLT_EPSILON < 1 := by norm_num [FLT_EPSILON]
    have h : |f - truncToInt f| > FLT_EPSILON := by linarith
    rw [show (24 : Nat) = 23 + 1 from rfl, nested_step _ f _ h]
    generalize |f - truncToInt f| = g at hg1 h
    have hg0 : (0 : ℚ) < g := by linarith
    have hc0 : 0 < 1 / g := by positivity
    have hc1 : 1 / g ≤ 1 := by rw [div_le_iff₀ hg0]; linarith
    have hp1 : FLT_EPSILON < FLT_EPSILON + FLT_EPSILON / g := by
      have : 0 < FLT_EPSILON / g := div_pos hε hg0
      linarith
    have hp1' : FLT_EPSILON + FLT_EPSILON / g = FLT_EPSILON * (1 + 1 / g) := by ring
    have hcr : |(1 / g)| < 2 ^ 31 := by
      rw [abs_of_pos hc0]
      calc 1 / g ≤ 1 := hc1
        _ < 2 ^ 31 := by norm_num
    have hcT : truncToInt (1 / g) = ⌊1 / g⌋ := truncToInt_of_nonneg hc0.le (lt_of_abs_lt hcr)
    by_cases h' : |1 / g - truncToInt (1 / g)| > FLT_EPSILON + FLT_EPSILON / g
    · rw [show (23 : Nat) = 22 + 1 from rfl, nested_step _ _ _ h']
      have hp31 : 1 ≤ 2 ^ 31 * (FLT_EPSILON + FLT_EPSILON / g) := by
        have := eps_range
        nlinarith
      obtain ⟨_, hgr⟩ := child_range (1 / g) _ (by linarith) hp31 h'
      have hgg := (fracPart_bounds _ hgr).2
      have hfl0 : (0 : ℤ) ≤ ⌊1 / g⌋ := Int.floor_nonneg.mpr hc0.le
      have hfl := Int.floor_le (1 / g)
      generalize hg'def : |1 / g - truncToInt (1 / g)| = g' at h' hgr hgg ⊢
      have hg'0 : 0 < g' := by linarith
      have hg'le : g' ≤ 1 / g := by
        rw [← hg'def, hcT, abs_of_nonneg (by linarith)]
        have : (0 : ℚ) ≤ (⌊1 / g⌋ : ℚ) := by exact_mod_cast hfl0
        linarith
      have hinv : g ≤ 1 / g' := by
        rw [le_div_iff₀ hg'0]
        have := mul_le_mul_of_nonneg_left hg'le hg0.le
        rw [mul_one_div, div_self hg0.ne'] at this
        exact this
      have h4 : 4 * FLT_EPSILON ≤ (FLT_EPSILON + FLT_EPSILON / g)
          + (FLT_EPSILON + FLT_EPSILON / g) / g' := by
        have e1 : (FLT_EPSILON + FLT_EPSILON / g) + (FLT_EPSILON + FLT_EPSILON / g) / g'
            = FLT_EPSILON * ((1 + 1 / g) * (1 + 1 / g')) := by ring
        have e2 : (4 : ℚ) ≤ (1 + 1 / g) * (1 + g) := by
          have : (1 + 1 / g) * (1 + g) = (1 + g) ^ 2 / g := by field_simp; ring
          rw [this, le_div_iff₀ hg0]
          nlinarith [sq_nonneg (g - 1)]
        have e3 : (1 + 1 / g) * (1 + g) ≤ (1 + 1 / g) * (1 + 1 / g') :=
          mul_le_mul_of_nonneg_left (by linarith) (by linarith)
        rw [e1]
        have := mul_le_mul_of_nonneg_left (le_trans e2 e3) hε.le
        linarith
      have h21 : 1 ≤ 2 ^ 21 * ((FLT_EPSILON + FLT_EPSILON / g)
          + (FLT_EPSILON + FLT_EPSILON / g) / g') := by
        have := eps_fuel
        nlinarith
      have h31 : 1 ≤ 2 ^ 31 * ((FLT_EPSILON + FLT_EPSILON / g)
          + (FLT_EPSILON + FLT_EPSILON / g) / g') := by
        nlinarith
      obtain ⟨k, hk, hk21⟩ := nestedCalls_bound 21 (1 / g') _ (by linarith) h31 hgg h21
      exact ⟨k + 1 + 1, by rw [hk], by omega⟩
    · exact ⟨1, by rw [show (23 : Nat) = 22 + 1 from rfl, nested_base _ _ _ h'], by omega⟩

/-- C10, counterexample. At `f = 2^31` with tolerance `FLT_EPSILON` the cast leaves the range
of `int`: the value tested against the tolerance is `2^32`, not below 1; the nested call gets
less than twice the tolerance; and the call returns `den = 0`, not `den ≥ 1`. -/
theorem cast_overflow_counterexample :
    (0 : ℚ) < FLT_EPSILON ∧
    float_to_fraction_recursive 24 (2 ^ 31) FLT_EPSILON = some (INT_MIN, 1, 0) ∧
    ¬ ((1 : ℤ) ≤ 0) ∧
    |(2 ^ 31 : ℚ) - (truncToInt (2 ^ 31) : ℚ)| = 2 ^ 32 ∧
    ¬ (|(2 ^ 31 : ℚ) - (truncToInt (2 ^ 31) : ℚ)| < 1) ∧
    |(2 ^ 31 : ℚ) - (truncToInt (2 ^ 31) : ℚ)| > FLT_EPSILON ∧
    ¬ (2 * FLT_EPSILON ≤
      FLT_EPSILON + FLT_EPSILON / |(2 ^ 31 : ℚ) - (truncToInt (2 ^ 31) : ℚ)|) := by
  have hT : truncToInt (2 ^ 31) = INT_MIN := truncToInt_of_ge (le_refl _)
  have hg : |(2 ^ 31 : ℚ) - (truncToInt (2 ^ 31) : ℚ)| = 2 ^ 32 := by
    rw [hT, INT_MIN]; norm_num [abs_of_pos]
  refine ⟨FLT_EPSILON_pos, rec_fuel_mono 2 24 _ _ _ (by norm_num) (rec_of_huge _ (le_refl _)),
    by norm_num, hg, ?_, ?_, ?_⟩
  · rw [hg]; norm_num
  · rw [hg]; norm_num [FLT_EPSILON]
  · rw [hg]; norm_num [FLT_EPSILON]

/-- C10, amended. The recursion returns for every `f` and every tolerance `p > 0` once enough
nested levels are allowed, and started from `FLT_EPSILON` it returns within 24 levels, that is
with at most 23 nested calls. While the casts stay within the range of `int`, that is for
`|f| < 2^31` and `p ≥ 2^-31`: the tested fractional part is below 1, a recursive call gets a
tolerance of at least `2 * p` and an argument again below `2^31`, and at every level the
returned `den` is at least 1 and the returned `num` at least 0. -/
theorem float_to_fraction_recursive_terminates :
    (∀ f p : ℚ, 0 < p → ∃ fuel0, ∀ fuel, fuel0 ≤ fuel →
      ∃ w n d, float_to_fraction_recursive fuel f p = some (w, n, d)) ∧
    (∀ (f : ℚ) (fuel : Nat), 24 ≤ fuel →
      (∃ w n d, float_to_fraction_recursive fuel f FLT_EPSILON = some (w, n, d)) ∧
      ∃ k, nestedCalls fuel f FLT_EPSILON = some k ∧ k ≤ 23) ∧
    (∀ f p : ℚ, 0 < p → 1 ≤ 2 ^ 31 * p → |f| < 2 ^ 31 →
      |f - truncToInt f| < 1 ∧
      (|f - truncToInt f| > p →
        2 * p ≤ p + p / |f - truncToInt f| ∧ |(1 / |f - truncToInt f|)| < 2 ^ 31)) ∧
    (∀ (fuel : Nat) (f p : ℚ) (w n d : ℤ), 0 < p → 1 ≤ 2 ^ 31 * p → |f| < 2 ^ 31 →
      float_to_fraction_recursive fuel f p = some (w, n, d) → 1 ≤ d ∧ 0 ≤ n) := by
  refine ⟨?_, ?_, ?_, ?_⟩
  · intro f p hp
    obtain ⟨N, hN⟩ := exists_pow_tolerance p hp
    refine ⟨2 * N + 2, fun fuel hfuel => ?_⟩
    obtain ⟨k, hk⟩ := nestedCalls_general N f p hp hN
    obtain ⟨⟨w, n, d⟩, h⟩ := rec_of_nested _ _ _ _ hk
    exact ⟨w, n, d, rec_fuel_mono _ fuel f p _ hfuel h⟩
  · intro f fuel hfuel
    obtain ⟨k, hk, hk23⟩ := nestedCalls_eps f
    obtain ⟨⟨w, n, d⟩, h⟩ := rec_of_nested _ _ _ _ hk
    exact ⟨⟨w, n, d, rec_fuel_mono _ fuel f _ _ hfuel h⟩,
      k, nestedCalls_fuel_mono _ fuel f _ k hfuel hk, hk23⟩
  · intro f p hp hp31 hf
    have hg := (fracPart_bounds f hf).2
    exact ⟨hg, fun h => ⟨tolerance_doubles f p hp hg h, (child_range f p hp hp31 h).2⟩⟩
  · intro fuel f p w n d hp hp31 hf h
    obtain ⟨_, hn, hd, _⟩ := cf_invariant fuel f p w n d hp hp31 (fracPart_bounds f hf).2 h
    exact ⟨hd, hn⟩

theorem float_to_fraction_recursive_terminates_witness :
    (0 : ℚ) < FLT_EPSILON ∧ (1 : ℚ) ≤ 2 ^ 31 * FLT_EPSILON ∧ |(-2997 / 100 : ℚ)| < 2 ^ 31 ∧
    (∃ fuel0, ∀ fuel, fuel0 ≤ fuel →
      ∃ w n d, float_to_fraction_recursive fuel (-2997 / 100) FLT_EPSILON = some (w, n, d)) ∧
    (∃ k, nestedCalls 24 (2997 / 100) FLT_EPSILON = some k ∧ k ≤ 23) ∧
    |(-2997 / 100 : ℚ) - truncToInt (-2997 / 100)| < 1 :=
  ⟨by norm_num [FLT_EPSILON], by norm_num [FLT_EPSILON], by norm_num [abs_lt],
   float_to_fraction_recursive_terminates.1 (-2997 / 100) FLT_EPSILON (by norm_num [FLT_EPSILON]),
   (float_to_fraction_recursive_terminates.2.1 (2997 / 100) 24 (by decide)).2,
   (float_to_fraction_recursive_terminates.2.2.1 (-2997 / 100) FLT_EPSILON
      (by norm_num [FLT_EPSILON]) (by norm_num [FLT_EPSILON]) (by norm_num [abs_lt])).1⟩

/-! ## Theorems: device session -/

/-- C6. On a non-null session `v4l2_grab_cam` leaves the session structure unchanged and
returns 1 exactly when every exchange succeeded. It issues one dequeue; when that fails it
issues nothing else, returns 0 and leaves the cell of `grab_len` untouched; otherwise it issues
exactly one enqueue of the descriptor the dequeue returned, returns 1 or 0 as the enqueue
succeeds or fails, and a non-null `grab_len` holds the reported `bytesused`. -/
theorem v4l2_grab_cam_contract (drv : Driver) (hist : List Event) (cam : v4l2_cam)
    (grab_len : Option Nat) :
    (v4l2_grab_cam drv hist (some cam) grab_len).cam = some cam ∧
    ((v4l2_grab_cam drv hist (some cam) grab_len).ret = 1 ↔
      ∀ e ∈ (v4l2_grab_cam drv hist (some cam) grab_len).trace, e.2.ret ≠ -1) ∧
    ∃ e1 : Event, e1.1.step = Step.dequeue_buffer ∧ e1.2 = drv hist e1.1 ∧
      ((e1.2.ret = -1 ∧
          (v4l2_grab_cam drv hist (some cam) grab_len).trace = [e1] ∧
          (v4l2_grab_cam drv hist (some cam) grab_len).ret = 0 ∧
          (v4l2_grab_cam drv hist (some cam) grab_len).grab_len = grab_len) ∨
       (e1.2.ret ≠ -1 ∧ ∃ e2 : Event,
          e2.1 = Request.qbuf cam.cam_fd e1.2.buf ∧ e2.2 = drv (hist ++ [e1]) e2.1 ∧
          (v4l2_grab_cam drv hist (some cam) grab_len).trace = [e1, e2] ∧
          ((v4l2_grab_cam drv hist (some cam) grab_len).ret = 1 ↔ e2.2.ret ≠ -1) ∧
          ((v4l2_grab_cam drv hist (some cam) grab_len).ret = 0 ↔ e2.2.ret = -1) ∧
          (v4l2_grab_cam drv hist (some cam) grab_len).grab_len
            = grab_len.map (fun _ => e1.2.buf.bytesused))) := by
  simp only [v4l2_grab_cam, xioctl, issue, List.append_nil, List.nil_append]
  generalize hq1 : Request.dqbuf cam.cam_fd _ = q1
  have hs1 : q1.step = Step.dequeue_buffer := by rw [← hq1]; rfl
  generalize hr1 : drv hist q1 = r1
  by_cases h1 : r1.ret = -1
  · simp only [if_pos h1]
    refine ⟨by simp, by simp [h1], (q1, r1), hs1, hr1.symm, Or.inl ⟨h1, ?_⟩⟩
    simp
  · simp only [if_neg h1]
    generalize hr2 : drv (hist ++ [(q1, r1)]) (Request.qbuf cam.cam_fd r1.buf) = r2
    refine ⟨by split_ifs <;> simp, ?_, (q1, r1), hs1, hr1.symm,
      Or.inr ⟨h1, (Request.qbuf cam.cam_fd r1.buf, r2), rfl, hr2.symm, ?_⟩⟩
    · by_cases h2 : r2.ret = -1 <;> simp [h1, h2]
    · by_cases h2 : r2.ret = -1
      · simp only [if_pos h2]
        refine ⟨by simp, by simp [h2], by simp [h2], ?_⟩
        cases grab_len <;> rfl
      · simp only [if_neg h2]
        refine ⟨by simp, by simp [h2], by simp [h2], ?_⟩
        cases grab_len <;> rfl

theorem v4l2_grab_cam_contract_witness :
    (v4l2_grab_cam (constDriver 0) [] (some sampleCam) (some 7)).cam = some sampleCam ∧
    ((v4l2_grab_cam (constDriver 0) [] (some sampleCam) (some 7)).ret = 1 ↔
      ∀ e ∈ (v4l2_grab_cam (constDriver 0) [] (some sampleCam) (some 7)).trace, e.2.ret ≠ -1) :=
  ⟨(v4l2_grab_cam_contract (constDriver 0) [] sampleCam (some 7)).1,
   (v4l2_grab_cam_contract (constDriver 0) [] sampleCam (some 7)).2.1⟩

/-- The steps of `v4l2_close_cam`, the order they come in, and the session fields after each
outcome. -/
theorem v4l2_close_cam_steps (drv : Driver) (hist : List Event) (cam : v4l2_cam) :
    ∃ cam', (v4l2_close_cam drv hist (some cam)).cam = some cam' ∧
      steps (v4l2_close_cam drv hist (some cam)).trace <+: closePlan cam ∧
      (∀ e ∈ (v4l2_close_cam drv hist (some cam)).trace.dropLast, e.2.ret ≠ -1) ∧
      ((v4l2_close_cam drv hist (some cam)).ret = 1 ↔
        ∀ e ∈ (v4l2_close_cam drv hist (some cam)).trace, e.2.ret ≠ -1) ∧
      ((v4l2_close_cam drv hist (some cam)).ret = 0 ∨
        (v4l2_close_cam drv hist (some cam)).ret = 1) ∧
      ((v4l2_close_cam drv hist (some cam)).ret = 1 →
        steps (v4l2_close_cam drv hist (some cam)).trace = closePlan cam) ∧
      (∀ e ∈ (v4l2_close_cam drv hist (some cam)).trace, e.1.step = Step.stream_off →
        e.2.ret = -1 → cam' = cam ∧
          steps (v4l2_close_cam drv hist (some cam)).trace = [Step.stream_off]) ∧
      (∀ e ∈ (v4l2_close_cam drv hist (some cam)).trace, e.1.step = Step.unmap_buffer →
        e.2.ret = -1 → cam' = cam ∧
          steps (v4l2_close_cam drv hist (some cam)).trace
            = [Step.stream_off, Step.unmap_buffer]) ∧
      (∀ e ∈ (v4l2_close_cam drv hist (some cam)).trace, e.1.step = Step.close_device →
        e.2.ret = -1 → cam'.data_buf = 0 ∧ cam'.buf_len = 0 ∧ cam'.cam_fd = cam.cam_fd) ∧
      ((v4l2_close_cam drv hist (some cam)).ret = 1 →
        cam'.data_buf = 0 ∧ cam'.buf_len = 0 ∧ cam'.cam_fd = 0) := by
  simp only [v4l2_close_cam, v4l2_close_cam_device, xioctl, issue, List.append_nil,
    List.nil_append, closePlan]
  generalize drv hist (Request.streamoff cam.cam_fd V4L2_BUF_TYPE_VIDEO_CAPTURE) = r1
  by_cases h1 : r1.ret = -1
  · simp only [if_pos h1]
    refine ⟨cam, rfl, ?_⟩
    simp [steps, Request.step, h1, List.prefix_iff_eq_append]
  · simp only [if_neg h1]
    by_cases hb : cam.data_buf ≠ 0 ∧ cam.buf_len ≠ 0
    · simp only [if_pos hb]
      generalize drv _ (Request.munmap cam.data_buf cam.buf_len) = r2
      by_cases h2 : r2.ret = -1
      · simp only [if_pos h2]
        refine ⟨cam, rfl, ?_⟩
        simp [steps, Request.step, h1, h2, List.prefix_iff_eq_append]
      · simp only [if_neg h2]
        generalize drv _ (Request.close cam.cam_fd) = r3
        by_cases h3 : r3.ret = -1
        · simp only [if_pos h3]
          refine ⟨_, rfl, ?_⟩
          simp [steps, Request.step, h1, h2, h3]
        · simp only [if_neg h3]
          refine ⟨_, rfl, ?_⟩
          simp [steps, Request.step, h1, h2, h3]
    · simp only [if_neg hb]
      generalize drv _ (Request.close cam.cam_fd) = r3
      by_cases h3 : r3.ret = -1
      · simp only [if_pos h3]
        refine ⟨_, rfl, ?_⟩
        simp [steps, Request.step, h1, h3]
      · simp only [if_neg h3]
        refine ⟨_, rfl, ?_⟩
        simp [steps, Request.step, h1, h3]

theorem steps_snoc (tr : List Event) (e : Event) : steps (tr ++ [e]) = steps tr ++ [e.1.step] := by
  simp [steps]

theorem ok_snoc (tr : List Event) (e : Event) (h : ∀ x ∈ tr, x.2.ret ≠ -1)
    (he : e.2.ret ≠ -1) : ∀ x ∈ tr ++ [e], x.2.ret ≠ -1 := by
  intro x hx
  rcases List.mem_append.mp hx with hx | hx
  · exact h x hx
  · rw [List.mem_singleton] at hx; rw [hx]; exact he

theorem followsPlan_fail (plan : List Step) (tr : List Event) (e : Event)
    (h : ∀ x ∈ tr, x.2.ret ≠ -1) (he : e.2.ret = -1)
    (hp : steps (tr ++ [e]) <+: plan) : FollowsPlan plan 0 (tr ++ [e]) := by
  refine ⟨hp, ?_, ?_, Or.inl rfl, ?_⟩
  · rw [List.dropLast_concat]; exact h
  · constructor
    · intro h0; exact absurd h0 (by decide)
    · intro hall; exact absurd he (hall e (by simp))
  · intro h0; exact absurd h0 (by decide)

theorem followsPlan_success (plan : List Step) (tr : List Event)
    (h : ∀ x ∈ tr, x.2.ret ≠ -1) (hp : steps tr = plan) : FollowsPlan plan 1 tr := by
  refine ⟨by rw [hp], ?_, ?_, Or.inr rfl, fun _ => hp⟩
  · intro e he; exact h e (List.mem_of_mem_dropLast he)
  · exact ⟨fun _ => h, fun _ => rfl⟩

theorem no_close_of_prefix (plan : List Step) (tr : List Event) (hp : steps tr <+: plan)
    (hc : Step.close_device ∉ plan) : ∀ e ∈ tr, e.1.step ≠ Step.close_device := by
  intro e he hs
  apply hc
  apply hp.subset
  rw [steps, List.mem_map]
  exact ⟨e, he, hs⟩

theorem v4l2_open_cam_buffers_contract (drv : Driver) (hist tr : List Event)
    (cam : v4l2_cam) (pre : List Step) (hpre : steps tr = pre)
    (hok : ∀ e ∈ tr, e.2.ret ≠ -1) :
    ∃ cam', (v4l2_open_cam_buffers drv hist tr cam).cam = some cam' ∧
      FollowsPlan (pre ++ [Step.request_buffer, Step.query_buffer, Step.map_buffer,
          Step.enqueue_buffer, Step.stream_on])
        (v4l2_open_cam_buffers drv hist tr cam).ret
        (v4l2_open_cam_buffers drv hist tr cam).trace ∧
      ((v4l2_open_cam_buffers drv hist tr cam).ret = 1 →
        ∃ eq em : Event, eq ∈ (v4l2_open_cam_buffers drv hist tr cam).trace ∧
          em ∈ (v4l2_open_cam_buffers drv hist tr cam).trace ∧
          eq.1.step = Step.query_buffer ∧ em.1.step = Step.map_buffer ∧
          cam'.buf_len = eq.2.buf.length ∧ cam'.data_buf = em.2.ret) ∧
      (∀ e ∈ (v4l2_open_cam_buffers drv hist tr cam).trace,
        e ∈ tr ∨ e.1.step ∈ [Step.request_buffer, Step.query_buffer, Step.map_buffer,
          Step.enqueue_buffer, Step.stream_on]) := by
  subst hpre
  simp only [v4l2_open_cam_buffers, xioctl, issue]
  generalize hq1 : Request.reqbufs cam.cam_fd 1 _ _ = q1
  have hs1 : q1.step = Step.request_buffer := by rw [← hq1]; rfl
  generalize drv _ q1 = r1
  have pfx : ∀ (l₁ l₂ : List Step), l₁ <+: l₂ → steps tr ++ l₁ <+: steps tr ++ l₂ :=
    fun l₁ l₂ h => (List.prefix_append_right_inj _).mpr h
  by_cases h1 : r1.ret = -1
  · simp only [if_pos h1]
    refine ⟨_, rfl, followsPlan_fail _ _ (q1, r1) hok h1 ?_, fun h => absurd h (by decide), ?_⟩
    · rw [steps_snoc, hs1]
      exact pfx _ _ (by simp)
    · simp only [List.mem_append, List.mem_singleton]
      rintro e (he | rfl) <;> simp [*]
  simp only [if_neg h1]
  have hok1 := ok_snoc tr (q1, r1) hok h1
  generalize hq2 : Request.querybuf cam.cam_fd _ = q2
  have hs2 : q2.step = Step.query_buffer := by rw [← hq2]; rfl
  generalize drv _ q2 = r2
  by_cases h2 : r2.ret = -1
  · simp only [if_pos h2]
    refine ⟨_, rfl, followsPlan_fail _ _ (q2, r2) hok1 h2 ?_, fun h => absurd h (by decide), ?_⟩
    · rw [steps_snoc, steps_snoc, hs1, hs2, List.append_assoc]
      exact pfx _ _ (by simp)
    · simp only [List.mem_append, List.mem_singleton]
      rintro e ((he | rfl) | rfl) <;> simp [*]
  simp only [if_neg h2]
  have hok2 := ok_snoc _ (q2, r2) hok1 h2
  generalize hq3 : Request.mmap r2.buf.length cam.cam_fd r2.buf.offset = q3
  have hs3 : q3.step = Step.map_buffer := by rw [← hq3]; rfl
  generalize drv _ q3 = r3
  by_cases h3 : r3.ret = -1
  · simp only [if_pos h3]
    refine ⟨_, rfl, followsPlan_fail _ _ (q3, r3) hok2 h3 ?_, fun h => absurd h (by decide), ?_⟩
    · rw [steps_snoc, steps_snoc, steps_snoc, hs1, hs2, hs3, List.append_assoc,
        List.append_assoc]
      exact pfx _ _ (by simp)
    · simp only [List.mem_append, List.mem_singleton]
      rintro e (((he | rfl) | rfl) | rfl) <;> simp [*]
  simp only [if_neg h3]
  have hok3 := ok_snoc _ (q3, r3) hok2 h3
  generalize hq4 : Request.qbuf cam.cam_fd _ = q4
  have hs4 : q4.step = Step.enqueue_buffer := by rw [← hq4]; rfl
  generalize drv _ q4 = r4
  by_cases h4 : r4.ret = -1
  · simp only [if_pos h4]
    refine ⟨_, rfl, followsPlan_fail _ _ (q4, r4) hok3 h4 ?_, fun h => absurd h (by decide), ?_⟩
    · rw [steps_snoc, steps_snoc, steps_snoc, steps_snoc, hs1, hs2, hs3, hs4,
        List.append_assoc, List.append_assoc, List.append_assoc]
      exact pfx _ _ (by simp)
    · simp only [List.mem_append, List.mem_singleton]
      rintro e ((((he | rfl) | rfl) | rfl) | rfl) <;> simp [*]
  simp only [if_neg h4]
  have hok4 := ok_snoc _ (q4, r4) hok3 h4
  generalize hq5 : Request.streamon cam.cam_fd r4.buf.type = q5
  have hs5 : q5.step = Step.stream_on := by rw [← hq5]; rfl
  generalize drv _ q5 = r5
  have hst : steps (tr ++ [(q1, r1)] ++ [(q2, r2)] ++ [(q3, r3)] ++ [(q4, r4)] ++ [(q5, r5)])
      = steps tr ++ [Step.request_buffer, Step.query_buffer, Step.map_buffer,
          Step.enqueue_buffer, Step.stream_on] := by
    rw [steps_snoc, steps_snoc, steps_snoc, steps_snoc, steps_snoc, hs1, hs2, hs3, hs4, hs5]
    simp
  by_cases h5 : r5.ret = -1
  · simp only [if_pos h5]
    refine ⟨_, rfl, followsPlan_fail _ _ (q5, r5) hok4 h5 ?_, fun h => absurd h (by decide), ?_⟩
    · rw [hst]
    · simp only [List.mem_append, List.mem_singleton]
      rintro e (((((he | rfl) | rfl) | rfl) | rfl) | rfl) <;> simp [*]
  simp only [if_neg h5]
  have hok5 := ok_snoc _ (q5, r5) hok4 h5
  refine ⟨_, rfl, followsPlan_success _ _ hok5 hst, fun _ => ⟨(q2, r2), (q3, r3), ?_, ?_, hs2, hs3,
    rfl, rfl⟩, ?_⟩
  · simp
  · simp
  · simp only [List.mem_append, List.mem_singleton]
    rintro e (((((he | rfl) | rfl) | rfl) | rfl) | rfl) <;> simp [*]

/-- The steps of `v4l2_open_cam`, the order they come in, and the session fields on
success. -/
theorem v4l2_open_cam_steps (fuel : Nat) (hf : 24 ≤ fuel) (drv : Driver)
    (hist : List Event) (cam : v4l2_cam) :
    v4l2_open_cam fuel drv hist none = some ⟨0, none, []⟩ ∧
    ∃ out cam', v4l2_open_cam fuel drv hist (some cam) = some out ∧ out.cam = some cam' ∧
      steps out.trace <+: openPlan cam.grab_fps ∧
      (∀ e ∈ out.trace.dropLast, e.2.ret ≠ -1) ∧
      (out.ret = 1 ↔ ∀ e ∈ out.trace, e.2.ret ≠ -1) ∧
      (out.ret = 0 ∨ out.ret = 1) ∧
      (out.ret = 1 → steps out.trace = openPlan cam.grab_fps) ∧
      (∀ e ∈ out.trace, e.1.step ≠ Step.close_device) ∧
      (∀ e ∈ out.trace, e.1.step = Step.set_frame_interval →
        0 < cam.grab_fps ∧ ∃ fd numerator denominator,
          timeperframe fuel cam.grab_fps = some (numerator, denominator) ∧
          e.1 = Request.s_parm fd V4L2_BUF_TYPE_VIDEO_CAPTURE numerator denominator) ∧
      (out.ret = 1 → ∃ eq em : Event, eq ∈ out.trace ∧ em ∈ out.trace ∧
        eq.1.step = Step.query_buffer ∧ em.1.step = Step.map_buffer ∧
        cam'.buf_len = eq.2.buf.length ∧ cam'.data_buf = em.2.ret) := by
  refine ⟨rfl, ?_⟩
  have hnc : ∀ fps : ℚ, Step.close_device ∉ openPlan fps := by
    intro fps; unfold openPlan; split_ifs <;> decide
  have hnil : ∀ x ∈ ([] : List Event), x.2.ret ≠ -1 := by simp
  simp only [v4l2_open_cam, xioctl, issue, List.append_nil, List.nil_append]
  generalize hq1 : Request.open_dev cam.cam_id = q1
  have hs1 : q1.step = Step.open_device := by rw [← hq1]; rfl
  generalize drv _ q1 = r1
  have fail_tail : ∀ (c : v4l2_cam) (tr : List Event) (e : Event),
      (∀ x ∈ tr, x.2.ret ≠ -1) → e.2.ret = -1 →
      steps (tr ++ [e]) <+: openPlan cam.grab_fps →
      (∀ x ∈ tr ++ [e], x.1.step = Step.set_frame_interval →
        0 < cam.grab_fps ∧ ∃ fd numerator denominator,
          timeperframe fuel cam.grab_fps = some (numerator, denominator) ∧
          x.1 = Request.s_parm fd V4L2_BUF_TYPE_VIDEO_CAPTURE numerator denominator) →
      ∃ out cam', some (Outcome.mk 0 (some c) (tr ++ [e])) = some out ∧ out.cam = some cam' ∧
        steps out.trace <+: openPlan cam.grab_fps ∧
        (∀ e ∈ out.trace.dropLast, e.2.ret ≠ -1) ∧
        (out.ret = 1 ↔ ∀ e ∈ out.trace, e.2.ret ≠ -1) ∧
        (out.ret = 0 ∨ out.ret = 1) ∧
        (out.ret = 1 → steps out.trace = openPlan cam.grab_fps) ∧
        (∀ e ∈ out.trace, e.1.step ≠ Step.close_device) ∧
        (∀ e ∈ out.trace, e.1.step = Step.set_frame_interval →
          0 < cam.grab_fps ∧ ∃ fd numerator denominator,
            timeperframe fuel cam.grab_fps = some (numerator, denominator) ∧
            e.1 = Request.s_parm fd V4L2_BUF_TYPE_VIDEO_CAPTURE numerator denominator) ∧
        (out.ret = 1 → ∃ eq em : Event, eq ∈ out.trace ∧ em ∈ out.trace ∧
          eq.1.step = Step.query_buffer ∧ em.1.step = Step.map_buffer ∧
          cam'.buf_len = eq.2.buf.length ∧ cam'.data_buf = em.2.ret) := by
    intro c tr e hok he hp hsp
    obtain ⟨p1, p2, p3, p4, p5⟩ := followsPlan_fail _ tr e hok he hp
    exact ⟨Outcome.mk 0 (some c) (tr ++ [e]), c, rfl, rfl, p1, p2, p3, p4, p5,
      no_close_of_prefix _ _ hp (hnc _), hsp,
      fun h => absurd (show (0 : Int) = 1 from h) (by decide)⟩
  have pfx3 : ∀ l : List Step, l <+: [Step.open_device, Step.query_capability, Step.set_format] →
      l <+: openPlan cam.grab_fps := by
    intro l hl
    unfold openPlan
    rw [List.append_assoc]
    exact hl.trans (List.prefix_append _ _)
  by_cases h1 : r1.ret = -1
  · simp only [if_pos h1]
    refine fail_tail _ [] (q1, r1) hnil h1 ?_ ?_
    · rw [steps_snoc, hs1]; exact pfx3 _ (by simp [steps])
    · simp only [List.nil_append, List.mem_singleton]
      rintro x rfl hx; rw [hs1] at hx; exact absurd hx (by decide)
  simp only [if_neg h1]
  have hok1 := ok_snoc [] (q1, r1) hnil h1
  rw [List.nil_append] at hok1
  generalize hq2 : Request.querycap r1.ret = q2
  have hs2 : q2.step = Step.query_capability := by rw [← hq2]; rfl
  generalize drv _ q2 = r2
  by_cases h2 : r2.ret = -1
  · simp only [if_pos h2]
    refine fail_tail _ _ (q2, r2) hok1 h2 ?_ ?_
    · rw [steps_snoc]; exact pfx3 _ (by simp [steps, hs1, hs2])
    · simp only [List.mem_append, List.mem_singleton, List.mem_cons, List.not_mem_nil,
        or_false]
      rintro x (rfl | rfl) hx
      · rw [hs1] at hx; exact absurd hx (by decide)
      · rw [hs2] at hx; exact absurd hx (by decide)
  simp only [if_neg h2]
  have hok2 := ok_snoc _ (q2, r2) hok1 h2
  generalize hq3 : Request.s_fmt r1.ret _ _ _ _ _ = q3
  have hs3 : q3.step = Step.set_format := by rw [← hq3]; rfl
  generalize drv _ q3 = r3
  by_cases h3 : r3.ret = -1
  · simp only [if_pos h3]
    refine fail_tail _ _ (q3, r3) hok2 h3 ?_ ?_
    · rw [steps_snoc, steps_snoc]; exact pfx3 _ (by simp [steps, hs1, hs2, hs3])
    · simp only [List.mem_append, List.mem_singleton, List.mem_cons, List.not_mem_nil,
        or_false]
      rintro x ((rfl | rfl) | rfl) hx
      · rw [hs1] at hx; exact absurd hx (by decide)
      · rw [hs2] at hx; exact absurd hx (by decide)
      · rw [hs3] at hx; exact absurd hx (by decide)
  simp only [if_neg h3]
  have hok3 := ok_snoc _ (q3, r3) hok2 h3
  have hst3 : steps ([(q1, r1)] ++ [(q2, r2)] ++ [(q3, r3)])
      = [Step.open_device, Step.query_capability, Step.set_format] := by
    simp [steps, hs1, hs2, hs3]
  have hsp3 : ∀ x ∈ [(q1, r1)] ++ [(q2, r2)] ++ [(q3, r3)],
      x.1.step ≠ Step.set_frame_interval := by
    simp only [List.mem_append, List.mem_singleton, List.mem_cons, List.not_mem_nil, or_false]
    rintro x ((rfl | rfl) | rfl) hx
    · rw [hs1] at hx; exact absurd hx (by decide)
    · rw [hs2] at hx; exact absurd hx (by decide)
    · rw [hs3] at hx; exact absurd hx (by decide)
  by_cases hfps : cam.grab_fps > 0
  · simp only [if_pos hfps]
    obtain ⟨num, den, hftf, htpf⟩ := float_to_fraction_total fuel hf cam.grab_fps hfps
    simp only [hftf]
    have hplan : openPlan cam.grab_fps = [Step.open_device, Step.query_capability,
        Step.set_format, Step.set_frame_interval] ++ [Step.request_buffer, Step.query_buffer,
        Step.map_buffer, Step.enqueue_buffer, Step.stream_on] := by
      unfold openPlan; rw [if_pos hfps]; rfl
    generalize hq4 : Request.s_parm r1.ret V4L2_BUF_TYPE_VIDEO_CAPTURE (toU32 den)
      (toU32 num) = q4
    have hs4 : q4.step = Step.set_frame_interval := by rw [← hq4]; rfl
    generalize drv _ q4 = r4
    have hsp4 : ∀ x ∈ [(q1, r1)] ++ [(q2, r2)] ++ [(q3, r3)] ++ [(q4, r4)],
        x.1.step = Step.set_frame_interval →
        0 < cam.grab_fps ∧ ∃ fd numerator denominator,
          timeperframe fuel cam.grab_fps = some (numerator, denominator) ∧
          x.1 = Request.s_parm fd V4L2_BUF_TYPE_VIDEO_CAPTURE numerator denominator := by
      intro x hx hsx
      rcases List.mem_append.mp hx with hx | hx
      · exact absurd hsx (hsp3 x hx)
      · rw [List.mem_singleton] at hx
        subst hx
        exact ⟨hfps, r1.ret, toU32 den, toU32 num, htpf, hq4.symm⟩
    have hst4 : steps ([(q1, r1)] ++ [(q2, r2)] ++ [(q3, r3)] ++ [(q4, r4)])
        = [Step.open_device, Step.query_capability, Step.set_format,
            Step.set_frame_interval] := by
      rw [steps_snoc, hst3, hs4]; rfl
    by_cases h4 : r4.ret = -1
    · simp only [if_pos h4]
      refine fail_tail _ _ (q4, r4) hok3 h4 ?_ hsp4
      rw [hst4, hplan]
      exact List.prefix_append _ _
    simp only [if_neg h4]
    have hok4 := ok_snoc _ (q4, r4) hok3 h4
    obtain ⟨cam', hc, ⟨p1, p2, p3, p4, p5⟩, hbuf, hprov⟩ :=
      v4l2_open_cam_buffers_contract drv hist _ { cam with cam_fd := r1.ret } _ hst4 hok4
    rw [← hplan] at p1 p5
    refine ⟨_, cam', rfl, hc, p1, p2, p3, p4, p5, no_close_of_prefix _ _ p1 (hnc _), ?_, hbuf⟩
    intro x hx hsx
    rcases hprov x hx with hx | hx
    · exact hsp4 x hx hsx
    · rw [hsx] at hx; exact absurd hx (by decide)
  · simp only [if_neg hfps]
    have hplan : openPlan cam.grab_fps = [Step.open_device, Step.query_capability,
        Step.set_format] ++ [Step.request_buffer, Step.query_buffer,
        Step.map_buffer, Step.enqueue_buffer, Step.stream_on] := by
      unfold openPlan; rw [if_neg hfps]; rfl
    obtain ⟨cam', hc, ⟨p1, p2, p3, p4, p5⟩, hbuf, hprov⟩ :=
      v4l2_open_cam_buffers_contract drv hist _ { cam with cam_fd := r1.ret } _ hst3 hok3
    rw [← hplan] at p1 p5
    refine ⟨_, cam', rfl, hc, p1, p2, p3, p4, p5, no_close_of_prefix _ _ p1 (hnc _), ?_, hbuf⟩
    intro x hx hsx
    rcases hprov x hx with hx | hx
    · exact absurd hsx (hsp3 x hx)
    · rw [hsx] at hx; exact absurd hx (by decide)

theorem handleOf_cons (e : Event) (l : List Event) : handleOf (e :: l) = e.2.ret := rfl

theorem lastBuf_snoc (tr : List Event) (e : Event) : lastBuf (tr ++ [e]) = e.2.buf := by
  simp [lastBuf]

theorem prevBuf_snoc (tr : List Event) (e e' : Event) :
    prevBuf (tr ++ [e] ++ [e']) = e.2.buf := by
  simp [prevBuf, lastBuf, List.dropLast_concat]

/-- A driver that never fails makes every plan return 1. -/
theorem runPlan_all_ok (drv : Driver) (hist : List Event) (hok : ∀ h q, (drv h q).ret ≠ -1) :
    ∀ (plan : List Planned) (tr : List Event), (runPlan drv hist plan tr).1 = 1 := by
  intro plan
  induction plan with
  | nil => intro tr; rfl
  | cons q rest ih =>
    intro tr
    simp only [runPlan, if_neg (hok _ _)]
    exact ih _

/-- From `//request buffer` on, `v4l2_open_cam` sends `bufferRequests`. -/
theorem v4l2_open_cam_buffers_runPlan (drv : Driver) (hist tr : List Event) (cam : v4l2_cam)
    (hfd : ∀ l, handleOf (tr ++ l) = cam.cam_fd) :
    ((v4l2_open_cam_buffers drv hist tr cam).ret, (v4l2_open_cam_buffers drv hist tr cam).trace)
      = runPlan drv hist bufferRequests tr ∧
    ∀ cam', (v4l2_open_cam_buffers drv hist tr cam).cam = some cam' →
      cam'.cam_fd = cam.cam_fd := by
  have h0 : handleOf tr = cam.cam_fd := by simpa using hfd []
  have h1 : ∀ e1, handleOf (tr ++ [e1]) = cam.cam_fd := fun e1 => hfd [e1]
  have h2 : ∀ e1 e2, handleOf (tr ++ [e1] ++ [e2]) = cam.cam_fd := by
    intro e1 e2; rw [List.append_assoc]; exact hfd _
  have h3 : ∀ e1 e2 e3, handleOf (tr ++ [e1] ++ [e2] ++ [e3]) = cam.cam_fd := by
    intro e1 e2 e3; rw [List.append_assoc, List.append_assoc]; exact hfd _
  have h4 : ∀ e1 e2 e3 e4, handleOf (tr ++ [e1] ++ [e2] ++ [e3] ++ [e4]) = cam.cam_fd := by
    intro e1 e2 e3 e4; rw [List.append_assoc, List.append_assoc, List.append_assoc]; exact hfd _
  simp only [v4l2_open_cam_buffers, xioctl, issue, bufferRequests, runPlan, h0, h1, h2, h3, h4,
    lastBuf_snoc, prevBuf_snoc, zeroed_buffer]
  constructor
  · split_ifs <;> rfl
  · intro cam'
    split_ifs <;> (intro h; simp only [Option.some.injEq] at h; rw [← h])

theorem runPlan_cons (drv : Driver) (hist : List Event) (q : Planned) (rest : List Planned)
    (tr : List Event) :
    runPlan drv hist (q :: rest) tr =
      if (drv (hist ++ tr) (q tr)).ret = -1 then (0, tr ++ [(q tr, drv (hist ++ tr) (q tr))])
      else runPlan drv hist rest (tr ++ [(q tr, drv (hist ++ tr) (q tr))]) := rfl

theorem runPlan_nil (drv : Driver) (hist : List Event) (tr : List Event) :
    runPlan drv hist [] tr = (1, tr) := rfl

/-- The requests of `v4l2_open_cam` are `openRequests`, sent in the specification's manner. -/
theorem v4l2_open_cam_runPlan (fuel : Nat) (hf : 24 ≤ fuel) (drv : Driver)
    (hist : List Event) (cam : v4l2_cam) :
    ∃ out, v4l2_open_cam fuel drv hist (some cam) = some out ∧
      (out.ret, out.trace) = runPlan drv hist
        (openRequests cam (if 0 < cam.grab_fps then timeperframe fuel cam.grab_fps else none))
        [] := by
  have hT : ∀ (e : Event) (l l' : List Event), handleOf (e :: l ++ l') = e.2.ret :=
    fun _ _ _ => rfl
  simp only [v4l2_open_cam, xioctl, issue, List.append_nil, List.nil_append]
  by_cases hfps : cam.grab_fps > 0
  · obtain ⟨num, den, hftf, htpf⟩ := float_to_fraction_total fuel hf cam.grab_fps hfps
    have hfps' : 0 < cam.grab_fps := hfps
    simp only [if_pos hfps, if_pos hfps', hftf, htpf, openRequests, List.cons_append,
      List.nil_append]
    rw [runPlan_cons]
    simp only [List.append_nil, List.nil_append]
    generalize drv hist (Request.open_dev cam.cam_id) = r1
    by_cases h1 : r1.ret = -1
    · simp only [if_pos h1]; exact ⟨_, rfl, rfl⟩
    simp only [if_neg h1]
    rw [runPlan_cons]
    simp only [List.cons_append, List.nil_append, handleOf_cons]
    generalize drv _ (Request.querycap r1.ret) = r2
    by_cases h2 : r2.ret = -1
    · simp only [if_pos h2]; exact ⟨_, rfl, rfl⟩
    simp only [if_neg h2]
    rw [runPlan_cons]
    simp only [List.cons_append, List.nil_append, handleOf_cons]
    generalize drv _ (Request.s_fmt r1.ret _ _ _ _ _) = r3
    by_cases h3 : r3.ret = -1
    · simp only [if_pos h3]; exact ⟨_, rfl, rfl⟩
    simp only [if_neg h3]
    rw [runPlan_cons]
    simp only [List.cons_append, List.nil_append, handleOf_cons]
    generalize drv _ (Request.s_parm r1.ret _ _ _) = r4
    by_cases h4 : r4.ret = -1
    · simp only [if_pos h4]; exact ⟨_, rfl, rfl⟩
    simp only [if_neg h4]
    exact ⟨_, rfl, (v4l2_open_cam_buffers_runPlan drv hist _
      { cam with cam_fd := r1.ret } (hT _ _)).1⟩
  · have hfps' : ¬ 0 < cam.grab_fps := hfps
    simp only [if_neg hfps, if_neg hfps', openRequests, List.cons_append, List.nil_append]
    rw [runPlan_cons]
    simp only [List.append_nil, List.nil_append]
    generalize drv hist (Request.open_dev cam.cam_id) = r1
    by_cases h1 : r1.ret = -1
    · simp only [if_pos h1]; exact ⟨_, rfl, rfl⟩
    simp only [if_neg h1]
    rw [runPlan_cons]
    simp only [List.cons_append, List.nil_append, handleOf_cons]
    generalize drv _ (Request.querycap r1.ret) = r2
    by_cases h2 : r2.ret = -1
    · simp only [if_pos h2]; exact ⟨_, rfl, rfl⟩
    simp only [if_neg h2]
    rw [runPlan_cons]
    simp only [List.cons_append, List.nil_append, handleOf_cons]
    generalize drv _ (Request.s_fmt r1.ret _ _ _ _ _) = r3
    by_cases h3 : r3.ret = -1
    · simp only [if_pos h3]; exact ⟨_, rfl, rfl⟩
    simp only [if_neg h3]
    exact ⟨_, rfl, (v4l2_open_cam_buffers_runPlan drv hist _
      { cam with cam_fd := r1.ret } (hT _ _)).1⟩

/-- The requests of `v4l2_close_cam` are `closeRequests`, sent in the specification's
manner. -/
theorem v4l2_close_cam_runPlan (drv : Driver) (hist : List Event) (cam : v4l2_cam) :
    ((v4l2_close_cam drv hist (some cam)).ret, (v4l2_close_cam drv hist (some cam)).trace)
      = runPlan drv hist (closeRequests cam) [] := by
  simp only [v4l2_close_cam, v4l2_close_cam_device, xioctl, issue, List.append_nil,
    List.nil_append, closeRequests]
  by_cases hb : cam.data_buf ≠ 0 ∧ cam.buf_len ≠ 0
  · simp only [if_pos hb, List.cons_append, List.nil_append]
    rw [runPlan_cons]
    simp only [List.append_nil, List.nil_append]
    generalize drv hist (Request.streamoff cam.cam_fd V4L2_BUF_TYPE_VIDEO_CAPTURE) = r1
    by_cases h1 : r1.ret = -1
    · simp only [if_pos h1]
    simp only [if_neg h1]
    rw [runPlan_cons]
    simp only [List.cons_append, List.nil_append]
    generalize drv _ (Request.munmap cam.data_buf cam.buf_len) = r2
    by_cases h2 : r2.ret = -1
    · simp only [if_pos h2]
    simp only [if_neg h2]
    rw [runPlan_cons, runPlan_nil]
    simp only [List.cons_append, List.nil_append]
    generalize drv _ (Request.close cam.cam_fd) = r3
    by_cases h3 : r3.ret = -1
    · simp only [if_pos h3]
    · simp only [if_neg h3]
  · simp only [if_neg hb, List.cons_append, List.nil_append]
    rw [runPlan_cons]
    simp only [List.append_nil, List.nil_append]
    generalize drv hist (Request.streamoff cam.cam_fd V4L2_BUF_TYPE_VIDEO_CAPTURE) = r1
    by_cases h1 : r1.ret = -1
    · simp only [if_pos h1]
    simp only [if_neg h1]
    rw [runPlan_cons, runPlan_nil]
    simp only [List.cons_append, List.nil_append]
    generalize drv _ (Request.close cam.cam_fd) = r3
    by_cases h3 : r3.ret = -1
    · simp only [if_pos h3]
    · simp only [if_neg h3]

/-- C5. On a non-null session `v4l2_close_cam` sends to the driver, each with the exchanges so
far, stream-off on the capture type, `munmap(data_buf, buf_len)` (skipped when `data_buf` or
`buf_len` is zero) and `close(cam_fd)` in that order, stops at the first failure and returns 1
exactly when every issued step succeeded, 0 otherwise; with a driver that never fails it
returns 1. A failed stream-off or unmap leaves the session structure unchanged and is the last
step issued; a failed close leaves `data_buf` and `buf_len` zero and `cam_fd` unchanged; on
success all three are zero. -/
theorem v4l2_close_cam_contract (drv : Driver) (hist : List Event) (cam : v4l2_cam) :
    ((v4l2_close_cam drv hist (some cam)).ret, (v4l2_close_cam drv hist (some cam)).trace)
      = runPlan drv hist (closeRequests cam) [] ∧
    ((∀ h q, (drv h q).ret ≠ -1) → (v4l2_close_cam drv hist (some cam)).ret = 1) ∧
    ∃ cam', (v4l2_close_cam drv hist (some cam)).cam = some cam' ∧
      steps (v4l2_close_cam drv hist (some cam)).trace <+: closePlan cam ∧
      (∀ e ∈ (v4l2_close_cam drv hist (some cam)).trace.dropLast, e.2.ret ≠ -1) ∧
      ((v4l2_close_cam drv hist (some cam)).ret = 1 ↔
        ∀ e ∈ (v4l2_close_cam drv hist (some cam)).trace, e.2.ret ≠ -1) ∧
      ((v4l2_close_cam drv hist (some cam)).ret = 0 ∨
        (v4l2_close_cam drv hist (some cam)).ret = 1) ∧
      ((v4l2_close_cam drv hist (some cam)).ret = 1 →
        steps (v4l2_close_cam drv hist (some cam)).trace = closePlan cam) ∧
      (∀ e ∈ (v4l2_close_cam drv hist (some cam)).trace, e.1.step = Step.stream_off →
        e.2.ret = -1 → cam' = cam ∧
          steps (v4l2_close_cam drv hist (some cam)).trace = [Step.stream_off]) ∧
      (∀ e ∈ (v4l2_close_cam drv hist (some cam)).trace, e.1.step = Step.unmap_buffer →
        e.2.ret = -1 → cam' = cam ∧
          steps (v4l2_close_cam drv hist (some cam)).trace
            = [Step.stream_off, Step.unmap_buffer]) ∧
      (∀ e ∈ (v4l2_close_cam drv hist (some cam)).trace, e.1.step = Step.close_device →
        e.2.ret = -1 → cam'.data_buf = 0 ∧ cam'.buf_len = 0 ∧ cam'.cam_fd = cam.cam_fd) ∧
      ((v4l2_close_cam drv hist (some cam)).ret = 1 →
        cam'.data_buf = 0 ∧ cam'.buf_len = 0 ∧ cam'.cam_fd = 0) := by
  have href := v4l2_close_cam_runPlan drv hist cam
  refine ⟨href, fun hok => ?_, v4l2_close_cam_steps drv hist cam⟩
  have h1 := runPlan_all_ok drv hist hok (closeRequests cam) []
  rw [← href] at h1
  exact h1

theorem v4l2_close_cam_contract_witness :
    (v4l2_close_cam (constDriver 0) [] (some sampleCam)).ret = 1 ∧
    ((v4l2_close_cam (constDriver 0) [] (some sampleCam)).ret,
      (v4l2_close_cam (constDriver 0) [] (some sampleCam)).trace)
      = runPlan (constDriver 0) [] (closeRequests sampleCam) [] :=
  ⟨(v4l2_close_cam_contract (constDriver 0) [] sampleCam).2.1
    (fun _ _ => by simp [constDriver]),
   (v4l2_close_cam_contract (constDriver 0) [] sampleCam).1⟩

/-- C4. On a null session `v4l2_open_cam` returns 0 and issues nothing. On a non-null session
it returns (the encoder needs at most 24 levels). It sends to the driver, each with the
exchanges so far, the requests of `openRequests` in their order: open-device for `cam_id`,
then on the handle that returned query-capability, set-format, set-frame-interval (present
exactly for a positive rate, carrying the interval derived from `float_to_fraction`), request
of one memory-mapped buffer, query-buffer, map-buffer of the reported length and offset,
enqueue of that buffer, stream-on; it stops at the first failure, so every exchange but the
last succeeded; it returns 1 exactly when every exchange succeeded, and then the whole order
was issued, 0 otherwise; with a driver that never fails it returns 1; no close is ever issued;
on success `buf_len` is the length reported by query-buffer and `data_buf` the address returned
by map-buffer. -/
theorem v4l2_open_cam_contract (fuel : Nat) (hf : 24 ≤ fuel) (drv : Driver)
    (hist : List Event) (cam : v4l2_cam) :
    v4l2_open_cam fuel drv hist none = some ⟨0, none, []⟩ ∧
    ∃ out cam', v4l2_open_cam fuel drv hist (some cam) = some out ∧ out.cam = some cam' ∧
      (out.ret, out.trace) = runPlan drv hist
        (openRequests cam (if 0 < cam.grab_fps then timeperframe fuel cam.grab_fps else none))
        [] ∧
      ((∀ h q, (drv h q).ret ≠ -1) → out.ret = 1) ∧
      steps out.trace <+: openPlan cam.grab_fps ∧
      (∀ e ∈ out.trace.dropLast, e.2.ret ≠ -1) ∧
      (out.ret = 1 ↔ ∀ e ∈ out.trace, e.2.ret ≠ -1) ∧
      (out.ret = 0 ∨ out.ret = 1) ∧
      (out.ret = 1 → steps out.trace = openPlan cam.grab_fps) ∧
      (∀ e ∈ out.trace, e.1.step ≠ Step.close_device) ∧
      (∀ e ∈ out.trace, e.1.step = Step.set_frame_interval →
        0 < cam.grab_fps ∧ ∃ fd numerator denominator,
          timeperframe fuel cam.grab_fps = some (numerator, denominator) ∧
          e.1 = Request.s_parm fd V4L2_BUF_TYPE_VIDEO_CAPTURE numerator denominator) ∧
      (out.ret = 1 → ∃ eq em : Event, eq ∈ out.trace ∧ em ∈ out.trace ∧
        eq.1.step = Step.query_buffer ∧ em.1.step = Step.map_buffer ∧
        cam'.buf_len = eq.2.buf.length ∧ cam'.data_buf = em.2.ret) := by
  obtain ⟨hnull, out, cam', hout, hcam, rest⟩ := v4l2_open_cam_steps fuel hf drv hist cam
  obtain ⟨out2, hout2, href⟩ := v4l2_open_cam_runPlan fuel hf drv hist cam
  have heq : out2 = out := Option.some.inj (hout2.symm.trans hout)
  subst heq
  refine ⟨hnull, out2, cam', hout, hcam, href, fun hok => ?_, rest⟩
  have h1 := runPlan_all_ok drv hist hok
    (openRequests cam (if 0 < cam.grab_fps then timeperframe fuel cam.grab_fps else none)) []
  rw [← href] at h1
  exact h1

theorem v4l2_open_cam_contract_witness :
    24 ≤ 24 ∧
    ∃ out, v4l2_open_cam 24 (constDriver 3) [] (some sampleCam) = some out ∧
      (out.ret, out.trace) = runPlan (constDriver 3) []
        (openRequests sampleCam
          (if 0 < sampleCam.grab_fps then timeperframe 24 sampleCam.grab_fps else none)) [] ∧
      out.ret = 1 :=
  ⟨le_refl _,
   match v4l2_open_cam_contract 24 (le_refl _) (constDriver 3) [] sampleCam with
   | ⟨_, out, _, h1, _, h2, h3, _⟩ => ⟨out, h1, h2, h3 (fun _ _ => by simp [constDriver])⟩⟩

end V4L2Cam
